import Mathlib

/-!
# Verification of the `typing_mind_deepseek_thinking` response transformers

Shallow embedding of the four fetch-interceptor variants found in the
repository (two in `reason.js`, two in the unnamed second source file),
together with proofs about the streaming transformer
`processStreamingResponse` and the batch transformer
`processNonStreamingResponse` of each variant.

JSON values are modelled by the inductive type `Json`; JSON numbers are
restricted to integers (no payload relevant to the transformers carries a
fractional number).  `JSON.stringify` is modelled by `Json.stringify` and
`JSON.parse` by `Json.parse`.  JavaScript objects are ordered key/value
lists; a property update keeps the position of an existing key, exactly as
a spread-with-override or a repeated key does in JavaScript.
-/

set_option maxHeartbeats 1000000

/-- JSON values, with numbers restricted to integers. -/
inductive Json where
  | null : Json
  | bool (b : Bool) : Json
  | num (n : Int) : Json
  | str (s : String) : Json
  | arr (xs : List Json) : Json
  | obj (fields : List (String × Json)) : Json
deriving Repr

mutual

/-- Decidable equality of JSON values. -/
def deqJ : (a b : Json) → Decidable (a = b)
  | .null, .null => .isTrue rfl
  | .bool a, .bool b =>
      if h : a = b then .isTrue (by rw [h]) else .isFalse (fun hc => h (by injection hc))
  | .num a, .num b =>
      if h : a = b then .isTrue (by rw [h]) else .isFalse (fun hc => h (by injection hc))
  | .str a, .str b =>
      if h : a = b then .isTrue (by rw [h]) else .isFalse (fun hc => h (by injection hc))
  | .arr xs, .arr ys =>
      match deqJL xs ys with
      | .isTrue h => .isTrue (by rw [h])
      | .isFalse h => .isFalse (fun hc => h (by injection hc))
  | .obj fs, .obj gs =>
      match deqJF fs gs with
      | .isTrue h => .isTrue (by rw [h])
      | .isFalse h => .isFalse (fun hc => h (by injection hc))
  | .null, .bool _ => .isFalse (fun h => Json.noConfusion h)
  | .null, .num _ => .isFalse (fun h => Json.noConfusion h)
  | .null, .str _ => .isFalse (fun h => Json.noConfusion h)
  | .null, .arr _ => .isFalse (fun h => Json.noConfusion h)
  | .null, .obj _ => .isFalse (fun h => Json.noConfusion h)
  | .bool _, .null => .isFalse (fun h => Json.noConfusion h)
  | .bool _, .num _ => .isFalse (fun h => Json.noConfusion h)
  | .bool _, .str _ => .isFalse (fun h => Json.noConfusion h)
  | .bool _, .arr _ => .isFalse (fun h => Json.noConfusion h)
  | .bool _, .obj _ => .isFalse (fun h => Json.noConfusion h)
  | .num _, .null => .isFalse (fun h => Json.noConfusion h)
  | .num _, .bool _ => .isFalse (fun h => Json.noConfusion h)
  | .num _, .str _ => .isFalse (fun h => Json.noConfusion h)
  | .num _, .arr _ => .isFalse (fun h => Json.noConfusion h)
  | .num _, .obj _ => .isFalse (fun h => Json.noConfusion h)
  | .str _, .null => .isFalse (fun h => Json.noConfusion h)
  | .str _, .bool _ => .isFalse (fun h => Json.noConfusion h)
  | .str _, .num _ => .isFalse (fun h => Json.noConfusion h)
  | .str _, .arr _ => .isFalse (fun h => Json.noConfusion h)
  | .str _, .obj _ => .isFalse (fun h => Json.noConfusion h)
  | .arr _, .null => .isFalse (fun h => Json.noConfusion h)
  | .arr _, .bool _ => .isFalse (fun h => Json.noConfusion h)
  | .arr _, .num _ => .isFalse (fun h => Json.noConfusion h)
  | .arr _, .str _ => .isFalse (fun h => Json.noConfusion h)
  | .arr _, .obj _ => .isFalse (fun h => Json.noConfusion h)
  | .obj _, .null => .isFalse (fun h => Json.noConfusion h)
  | .obj _, .bool _ => .isFalse (fun h => Json.noConfusion h)
  | .obj _, .num _ => .isFalse (fun h => Json.noConfusion h)
  | .obj _, .str _ => .isFalse (fun h => Json.noConfusion h)
  | .obj _, .arr _ => .isFalse (fun h => Json.noConfusion h)

/-- Decidable equality of JSON value lists. -/
def deqJL : (xs ys : List Json) → Decidable (xs = ys)
  | [], [] => .isTrue rfl
  | [], _ :: _ => .isFalse (fun h => List.noConfusion h)
  | _ :: _, [] => .isFalse (fun h => List.noConfusion h)
  | x :: xs, y :: ys =>
      match deqJ x y with
      | .isTrue h1 =>
          match deqJL xs ys with
          | .isTrue h2 => .isTrue (by rw [h1, h2])
          | .isFalse h2 => .isFalse (fun hc => h2 (by injection hc))
      | .isFalse h1 => .isFalse (fun hc => h1 (by injection hc))

/-- Decidable equality of JSON member lists. -/
def deqJF : (fs gs : List (String × Json)) → Decidable (fs = gs)
  | [], [] => .isTrue rfl
  | [], _ :: _ => .isFalse (fun h => List.noConfusion h)
  | _ :: _, [] => .isFalse (fun h => List.noConfusion h)
  | (k, v) :: fs, (k', v') :: gs =>
      if hk : k = k' then
        match deqJ v v' with
        | .isTrue hv =>
            match deqJF fs gs with
            | .isTrue ht => .isTrue (by rw [hk, hv, ht])
            | .isFalse ht => .isFalse (fun hc => ht (by injection hc))
        | .isFalse hv =>
            .isFalse (fun hc => by
              injection hc with h1 h2
              exact hv (congrArg Prod.snd h1))
      else
        .isFalse (fun hc => by
          injection hc with h1 h2
          exact hk (congrArg Prod.fst h1))

end

instance : DecidableEq Json := deqJ

/-- Opening brace character. -/
def obraceC : Char := Char.ofNat 123

/-- Closing brace character. -/
def cbraceC : Char := Char.ofNat 125

/-- One lowercase hexadecimal digit. -/
def hexDigit (n : Nat) : Char :=
  if n < 10 then Char.ofNat (48 + n) else Char.ofNat (87 + n)

/-- Two lowercase hexadecimal digits of a byte. -/
def hex2 (n : Nat) : String :=
  String.mk [hexDigit (n / 16 % 16), hexDigit (n % 16)]

/-- `JSON.stringify` escaping of one character inside a string literal. -/
def escChar (c : Char) : String :=
  if c = '"' then "\\\""
  else if c = '\\' then "\\\\"
  else if c = '\n' then "\\n"
  else if c = '\t' then "\\t"
  else if c = '\r' then "\\r"
  else if c = Char.ofNat 8 then "\\b"
  else if c = Char.ofNat 12 then "\\f"
  else if c.toNat < 32 then "\\u00" ++ hex2 c.toNat
  else String.singleton c

/-- `JSON.stringify` escaping of a whole string body. -/
def escString (s : String) : String := String.join (s.data.map escChar)

mutual

/-- `JSON.stringify` (no spacing), object keys in insertion order. -/
def Json.stringify : Json → String
  | .null => "null"
  | .bool true => "true"
  | .bool false => "false"
  | .num n => toString n
  | .str s => "\"" ++ escString s ++ "\""
  | .arr xs => "[" ++ stringifyArr xs ++ "]"
  | .obj fs => "\x7b" ++ stringifyObj fs ++ "\x7d"

/-- Comma-joined serialization of array elements. -/
def stringifyArr : List Json → String
  | [] => ""
  | [x] => Json.stringify x
  | x :: y :: xs => Json.stringify x ++ "," ++ stringifyArr (y :: xs)

/-- Comma-joined serialization of object members. -/
def stringifyObj : List (String × Json) → String
  | [] => ""
  | [(k, v)] => "\"" ++ escString k ++ "\":" ++ Json.stringify v
  | (k, v) :: p :: fs =>
      "\"" ++ escString k ++ "\":" ++ Json.stringify v ++ "," ++ stringifyObj (p :: fs)

end

/-- JavaScript truthiness of a JSON value (`if (x)`). -/
def jsTruthy : Json → Bool
  | .null => false
  | .bool b => b
  | .num n => decide (n ≠ 0)
  | .str s => decide (s ≠ "")
  | .arr _ => true
  | .obj _ => true

/-- Truthiness of a possibly-absent (`undefined`) value. -/
def jsTruthyO : Option Json → Bool
  | none => false
  | some j => jsTruthy j

/-- JavaScript property access `j.k`: `undefined` on non-objects and missing keys. -/
def getField (j : Json) (k : String) : Option Json :=
  match j with
  | .obj fs => (fs.find? (fun p => decide (p.1 = k))).map (·.2)
  | _ => none

/-- The own fields of a value, as spread (`...j`) enumerates them. -/
def fieldsOf : Json → List (String × Json)
  | .obj fs => fs
  | _ => []

/-- Object update: replaces the value of an existing key in place, else
appends — the semantics of a spread-with-override. -/
def objSet : List (String × Json) → String → Json → List (String × Json)
  | [], k, v => [(k, v)]
  | (k', v') :: fs, k, v =>
      if k' = k then (k, v) :: fs else (k', v') :: objSet fs k v

/-- `{...j, k: v}`. -/
def setF (j : Json) (k : String) (v : Json) : Json :=
  Json.obj (objSet (fieldsOf j) k v)

/-- `delete j.k` (on a copy of `j`). -/
def delF (j : Json) (k : String) : Json :=
  Json.obj ((fieldsOf j).filter (fun p => decide (p.1 ≠ k)))

mutual

/-- JavaScript string conversion `String(x)` as used by template literals. -/
def jsToString : Json → String
  | .null => "null"
  | .bool true => "true"
  | .bool false => "false"
  | .num n => toString n
  | .str s => s
  | .arr xs => jsToStringArr xs
  | .obj _ => "[object Object]"

/-- `Array.prototype.toString`: comma join, `null` elements become empty. -/
def jsToStringArr : List Json → String
  | [] => ""
  | [Json.null] => ""
  | [x] => jsToString x
  | Json.null :: y :: xs => "," ++ jsToStringArr (y :: xs)
  | x :: y :: xs => jsToString x ++ "," ++ jsToStringArr (y :: xs)

end

/-- One array element under `Array.prototype.join`. -/
def jsToStringElem : Json → String
  | .null => ""
  | x => jsToString x

/-- Is `xs` a leading segment of `ys`? -/
def leadsWith : List Char → List Char → Bool
  | [], _ => true
  | _ :: _, [] => false
  | a :: as, b :: bs => a = b && leadsWith as bs

/-- Does `ys` contain `xs` as a contiguous segment (`String.prototype.includes`)? -/
def hasSub (xs : List Char) : List Char → Bool
  | [] => leadsWith xs []
  | y :: ys => leadsWith xs (y :: ys) || hasSub xs ys

/-- JSON whitespace. -/
def isJsonWs (c : Char) : Bool :=
  c = ' ' || c = '\t' || c = '\n' || c = '\r'

/-- Drop leading JSON whitespace. -/
def skipWs : List Char → List Char
  | [] => []
  | c :: cs => if isJsonWs c then skipWs cs else c :: cs

/-- ASCII decimal digit test. -/
def isDigitC (c : Char) : Bool := 48 ≤ c.toNat && c.toNat ≤ 57

/-- Split off a maximal run of digits. -/
def takeDigits : List Char → List Char × List Char
  | [] => ([], [])
  | c :: cs =>
      if isDigitC c then
        let (ds, rest) := takeDigits cs
        (c :: ds, rest)
      else ([], c :: cs)

/-- Numeric value of a digit run. -/
def digitsToNat (ds : List Char) : Nat :=
  ds.foldl (fun acc c => acc * 10 + (c.toNat - 48)) 0

/-- Parse a JSON number (integers only: a fraction or exponent is rejected,
a restriction of this model). -/
def parseNum (cs : List Char) : Option (Json × List Char) :=
  let signed : Bool × List Char :=
    match cs with
    | '-' :: rest => (true, rest)
    | _ => (false, cs)
  match signed.2 with
  | [] => none
  | c :: rest =>
      if c = '0' then
        match rest with
        | [] => some (Json.num 0, [])
        | d :: _ =>
            if isDigitC d || d = '.' || d = 'e' || d = 'E' then none
            else some (Json.num 0, rest)
      else if isDigitC c then
        let (ds, rest2) := takeDigits rest
        let n : Nat := digitsToNat (c :: ds)
        let v : Int := if signed.1 then -(n : Int) else (n : Int)
        match rest2 with
        | [] => some (Json.num v, [])
        | d :: _ =>
            if d = '.' || d = 'e' || d = 'E' then none
            else some (Json.num v, rest2)
      else none

/-- Value of a hexadecimal digit. -/
def hexVal (c : Char) : Option Nat :=
  if 48 ≤ c.toNat ∧ c.toNat ≤ 57 then some (c.toNat - 48)
  else if 97 ≤ c.toNat ∧ c.toNat ≤ 102 then some (c.toNat - 87)
  else if 65 ≤ c.toNat ∧ c.toNat ≤ 70 then some (c.toNat - 55)
  else none

/-- Parse the body of a JSON string literal (after the opening quote),
returning the decoded characters and the remaining input. -/
def parseStrBody : Nat → List Char → Option (List Char × List Char)
  | 0, _ => none
  | _ + 1, [] => none
  | fuel + 1, c :: cs =>
      if c = '"' then some ([], cs)
      else if c = '\\' then
        match cs with
        | [] => none
        | e :: cs2 =>
            let dec : Option (Char × List Char) :=
              if e = '"' then some ('"', cs2)
              else if e = '\\' then some ('\\', cs2)
              else if e = '/' then some ('/', cs2)
              else if e = 'b' then some (Char.ofNat 8, cs2)
              else if e = 'f' then some (Char.ofNat 12, cs2)
              else if e = 'n' then some ('\n', cs2)
              else if e = 'r' then some ('\r', cs2)
              else if e = 't' then some ('\t', cs2)
              else if e = 'u' then
                match cs2 with
                | h1 :: h2 :: h3 :: h4 :: cs3 =>
                    match hexVal h1, hexVal h2, hexVal h3, hexVal h4 with
                    | some a, some b, some c2, some d =>
                        some (Char.ofNat (((a * 16 + b) * 16 + c2) * 16 + d), cs3)
                    | _, _, _, _ => none
                | _ => none
              else none
            match dec with
            | some (ch, rest) =>
                match parseStrBody fuel rest with
                | some (out, rem) => some (ch :: out, rem)
                | none => none
            | none => none
      else if c.toNat < 32 then none
      else
        match parseStrBody fuel cs with
        | some (out, rem) => some (c :: out, rem)
        | none => none

/-- Merge one parsed object member in front of the members parsed after it,
with JavaScript duplicate-key semantics: first position, last value. -/
def insMember (k : String) (v : Json) (fs : List (String × Json)) :
    List (String × Json) :=
  match fs.find? (fun p => decide (p.1 = k)) with
  | some p => (k, p.2) :: fs.filter (fun q => decide (q.1 ≠ k))
  | none => (k, v) :: fs

mutual

/-- Parse one JSON value (fuelled recursive descent). -/
def parseVal : Nat → List Char → Option (Json × List Char)
  | 0, _ => none
  | fuel + 1, cs0 =>
      match skipWs cs0 with
      | [] => none
      | c :: rest =>
          if c = 'n' then
            if leadsWith "ull".data rest then some (Json.null, rest.drop 3) else none
          else if c = 't' then
            if leadsWith "rue".data rest then some (Json.bool true, rest.drop 3) else none
          else if c = 'f' then
            if leadsWith "alse".data rest then some (Json.bool false, rest.drop 4) else none
          else if c = '"' then
            match parseStrBody (rest.length + 1) rest with
            | some (out, rem) => some (Json.str (String.mk out), rem)
            | none => none
          else if c = '[' then
            match skipWs rest with
            | ']' :: rem => some (Json.arr [], rem)
            | cs2 =>
                match parseElems fuel cs2 with
                | some (xs, rem) => some (Json.arr xs, rem)
                | none => none
          else if c = obraceC then
            match skipWs rest with
            | [] => none
            | d :: rem =>
                if d = cbraceC then some (Json.obj [], rem)
                else
                  match parseMembers fuel (d :: rem) with
                  | some (fs, rem2) => some (Json.obj fs, rem2)
                  | none => none
          else parseNum (c :: rest)

/-- Parse the elements of a non-empty JSON array, consuming the closing bracket. -/
def parseElems : Nat → List Char → Option (List Json × List Char)
  | 0, _ => none
  | fuel + 1, cs =>
      match parseVal fuel cs with
      | some (v, rem) =>
          match skipWs rem with
          | ',' :: rem2 =>
              match parseElems fuel rem2 with
              | some (vs, rem3) => some (v :: vs, rem3)
              | none => none
          | ']' :: rem2 => some ([v], rem2)
          | _ => none
      | none => none

/-- Parse the members of a non-empty JSON object, consuming the closing brace. -/
def parseMembers : Nat → List Char → Option (List (String × Json) × List Char)
  | 0, _ => none
  | fuel + 1, cs =>
      match skipWs cs with
      | '"' :: rest =>
          match parseStrBody (rest.length + 1) rest with
          | some (kout, rem) =>
              match skipWs rem with
              | ':' :: rem2 =>
                  match parseVal fuel rem2 with
                  | some (v, rem3) =>
                      match skipWs rem3 with
                      | ',' :: rem4 =>
                          match parseMembers fuel rem4 with
                          | some (fs, rem5) =>
                              some (insMember (String.mk kout) v fs, rem5)
                          | none => none
                      | d :: rem4 =>
                          if d = cbraceC then some ([(String.mk kout, v)], rem4)
                          else none
                      | [] => none
                  | none => none
              | _ => none
          | none => none
      | _ => none

end

/-- `JSON.parse`: the whole input, with surrounding whitespace, must be one value. -/
def Json.parse (s : String) : Option Json :=
  match parseVal (2 * s.length + 8) s.data with
  | some (v, rem) => if (skipWs rem).isEmpty then some v else none
  | none => none

/-- Classification of one input line, shared by every streaming variant:
not an event line / sentinel (`[DONE]`) line / malformed payload / decoded event. -/
inductive LineClass where
  | raw : LineClass
  | sentinel : LineClass
  | bad : LineClass
  | ev (data : Json) : LineClass
deriving Repr, DecidableEq

/-- The tests every variant performs on a line, in source order:
`line.startsWith("data: ")`, then `line.includes("[DONE]")`, then
`JSON.parse(line.slice(6))`. -/
def classify (line : String) : LineClass :=
  if leadsWith "data: ".data line.data then
    if hasSub "[DONE]".data line.data then .sentinel
    else
      match Json.parse (String.mk (line.data.drop 6)) with
      | some d => .ev d
      | none => .bad
  else .raw

example : Json.parse "\x7b\"a\":1,\"b\":[null,true,\"x\"]\x7d" =
    some (Json.obj [("a", Json.num 1), ("b", Json.arr [Json.null, Json.bool true, Json.str "x"])]) := by
  decide

example : Json.stringify (Json.obj [("a", Json.num 1), ("b", Json.str "x\ny")]) =
    "\x7b\"a\":1,\"b\":\"x\\ny\"\x7d" := by decide

example : classify "data: [DONE]" = LineClass.sentinel := by decide

example : classify "data: \x7bnope" = LineClass.bad := by decide

example : classify ": keепalive" = LineClass.raw := by decide

/-! ## Output items

Every `controller.enqueue` call of the streaming transformers is modelled
as one `Item` carrying the exact encoded string, tagged by the enqueue
site that produced it.  `Item.render` recovers the byte stream. -/

/-- One enqueued output chunk, tagged by its enqueue site. -/
inductive Item where
  | fwd (s : String) : Item
  | header (s : String) : Item
  | frag (s : String) : Item
  | sep (s : String) : Item
  | footer (s : String) : Item
  | clean (s : String) : Item
deriving Repr, DecidableEq

/-- The string actually enqueued for an item. -/
def Item.render : Item → String
  | .fwd s => s
  | .header s => s
  | .frag s => s
  | .sep s => s
  | .footer s => s
  | .clean s => s

/-- Is this the synthetic reasoning header event? -/
def Item.isHeader : Item → Bool
  | .header _ => true
  | _ => false

/-- Is this a rewritten reasoning fragment event? -/
def Item.isFrag : Item → Bool
  | .frag _ => true
  | _ => false

/-- Is this the synthetic duration-separator event? -/
def Item.isSep : Item → Bool
  | .sep _ => true
  | _ => false

/-- Is this the synthetic citation footer event? -/
def Item.isFooter : Item → Bool
  | .footer _ => true
  | _ => false

/-- Number of items satisfying a predicate. -/
def countP (p : Item → Bool) (items : List Item) : Nat := (items.filter p).length

/-- Concatenation of a list of strings. -/
def concatAll : List String → String
  | [] => ""
  | s :: ss => s ++ concatAll ss

/-- The byte stream of a transformer run. -/
def outputOf (r : List Item × Bool) : String := concatAll (r.1.map Item.render)

/-! ## Line buffering shared by all variants -/

/-- `buffer.split('\n')` on character lists: every occurrence splits,
empty segments kept, so the result is never empty. -/
def splitNlL : List Char → List (List Char)
  | [] => [[]]
  | c :: cs =>
      if c = '\n' then [] :: splitNlL cs
      else
        match splitNlL cs with
        | [] => [[c]]
        | h :: t => (c :: h) :: t

/-- `s.split('\n')`. -/
def splitNl (s : String) : List String := (splitNlL s.data).map String.mk

/-- Last element with default. -/
def lastD {α : Type} : List α → α → α
  | [], d => d
  | [x], _ => x
  | _ :: y :: t, d => lastD (y :: t) d

/-- Process a list of complete lines through a per-line step, stopping when
a step reports a fatal error (`controller.error`). -/
def lineFold {σ : Type} (step : σ → String → σ × List Item × Bool) :
    σ → List String → σ × List Item × Bool
  | st, [] => (st, [], false)
  | st, l :: ls =>
      match step st l with
      | (st', out, true) => (st', out, true)
      | (st', out, false) =>
          match lineFold step st' ls with
          | (st'', out', e) => (st'', out ++ out', e)

/-- The read loop: append each chunk to the carried buffer, split on the
line separator, retain the trailing (possibly partial) segment, process the
complete lines. -/
def chunkFold {σ : Type} (step : σ → String → σ × List Item × Bool) :
    σ → String → List String → σ × String × List Item × Bool
  | st, buf, [] => (st, buf, [], false)
  | st, buf, c :: cs =>
      let parts := splitNl (buf ++ c)
      let buf' := lastD parts ""
      match lineFold step st parts.dropLast with
      | (st', out, true) => (st', buf', out, true)
      | (st', out, false) =>
          match chunkFold step st' buf' cs with
          | (st'', buf'', out', e) => (st'', buf'', out ++ out', e)

/-- A whole streaming run: the read loop over the chunks, then the
end-of-transport handler (the retained buffer is never flushed). -/
def runStream {σ : Type} (step : σ → String → σ × List Item × Bool)
    (fin : σ → List Item × Bool) (init : σ) (chunks : List String) :
    List Item × Bool :=
  match chunkFold step init "" chunks with
  | (_, _, out, true) => (out, true)
  | (st, _, out, false) =>
      match fin st with
      | (out2, e) => (out ++ out2, e)

/-! ## Shared text builders -/

/-- The fixed reasoning header text. -/
def thinkingText : String := "💭 Thinking...\n\n> "

/-- `delta.reasoning.replace(/\n/g, '\n> ')` on character lists. -/
def quoteNlL : List Char → List Char
  | [] => []
  | c :: cs => if c = '\n' then '\n' :: '>' :: ' ' :: quoteNlL cs else c :: quoteNlL cs

/-- `delta.reasoning.replace(/\n/g, '\n> ')`. -/
def quoteNl (s : String) : String := String.mk (quoteNlL s.data)

/-- `Math.round((now - start) / 1000)` on a nonnegative millisecond count. -/
def roundSec (ms : Nat) : Nat := (ms + 500) / 1000

/-- The duration-separator text. -/
def sepText (d : Nat) : String :=
  "\n\n💡 Thought for " ++ toString d ++ " seconds\n\n---\n\n"

/-- Citation entries `[i+1] > c` (the `reason.js` format, with a space). -/
def enumMapAB : Nat → List Json → List String
  | _, [] => []
  | i, c :: cs => ("[" ++ toString (i + 1) ++ "] > " ++ jsToString c) :: enumMapAB (i + 1) cs

/-- Citation entries `[i+1]> c` (the second file's format, no space). -/
def enumMapNoSp : Nat → List Json → List String
  | _, [] => []
  | i, c :: cs => ("[" ++ toString (i + 1) ++ "]> " ++ jsToString c) :: enumMapNoSp (i + 1) cs

/-- `citations.map((c, i) => `[i+1] > c`).join("\n")`. -/
def citationsTextAB (xs : List Json) : String :=
  String.intercalate "\n" (enumMapAB 0 xs)

/-- The `reason.js` citations footer event `data: {"citations": text}\n\n`. -/
def citationsMessageAB (xs : List Json) : String :=
  "data: " ++ Json.stringify (Json.obj [("citations", Json.str (citationsTextAB xs))]) ++ "\n\n"

/-- `citations.map(...)` succeeds only on an array; anything else throws. -/
def footAB : Json → Option String
  | Json.arr xs => some (citationsMessageAB xs)
  | _ => none

/-- `data?.choices?.[0]`. -/
def choice0Of (data : Json) : Option Json :=
  match getField data "choices" with
  | some (Json.arr (c0 :: _)) => some c0
  | _ => none

/-- `data?.choices?.[0]?.delta` together with its truthiness test. -/
def deltaOf (data : Json) : Option (Json × Json) :=
  match choice0Of data with
  | some c0 =>
      match getField c0 "delta" with
      | some d => if jsTruthy d then some (c0, d) else none
      | none => none
  | none => none

/-- `delta.reasoning && delta.content === null` (variants B and D). -/
def reasonGuardNull (delta : Json) : Bool :=
  jsTruthyO (getField delta "reasoning") && decide (getField delta "content" = some Json.null)

/-- `delta.content !== null` (variants B and D). -/
def contentGuardNonNull (delta : Json) : Bool :=
  decide (getField delta "content" ≠ some Json.null)

/-- `delta.reasoning && !delta.content` (variant C). -/
def reasonGuardFalsy (delta : Json) : Bool :=
  jsTruthyO (getField delta "reasoning") && !jsTruthyO (getField delta "content")

/-- `delta.content !== undefined` (variant C). -/
def contentGuardDefined (delta : Json) : Bool :=
  (getField delta "content").isSome

/-- `{...data, choices: [{...choices0, delta: {content}}]}` of variants B and D. -/
def spreadEvent (data c0 : Json) (content : String) : Json :=
  setF data "choices" (Json.arr [setF c0 "delta" (Json.obj [("content", Json.str content)])])

/-- Wire encoding of a spread-built synthetic event. -/
def mkSpread (data c0 : Json) (content : String) : String :=
  "data: " ++ Json.stringify (spreadEvent data c0 content) ++ "\n\n"

/-- A fresh `{choices: [{delta: {content}}]}` event of variants C and D. -/
def freshEvent (content : String) : Json :=
  Json.obj [("choices", Json.arr [Json.obj [("delta", Json.obj [("content", Json.str content)])]])]

/-- Wire encoding of a fresh synthetic event. -/
def mkFresh (content : String) : String :=
  "data: " ++ Json.stringify (freshEvent content) ++ "\n\n"

/-! ## Variant A: `reason.js`, first interceptor (citations only) -/

/-- State of variant A's `processStreamingResponse`: `let citations = null`. -/
structure StA where
  citations : Option Json
deriving Repr, DecidableEq

/-- Initial state of variant A. -/
def initStA : StA := ⟨none⟩

/-- Per-line processing of variant A (`reason.js` lines 81–112). -/
def stepA (st : StA) (line : String) : StA × List Item × Bool :=
  match classify line with
  | .raw => (st, [Item.fwd (line ++ "\n")], false)
  | .sentinel =>
      match st.citations with
      | none => (st, [Item.fwd (line ++ "\n")], false)
      | some c =>
          match footAB c with
          | some msg => (⟨none⟩, [Item.footer msg, Item.fwd (line ++ "\n")], false)
          | none => (st, [], true)
  | .bad => (st, [Item.fwd (line ++ "\n")], false)
  | .ev data =>
      let st' :=
        if jsTruthyO (getField data "citations") && st.citations.isNone then
          StA.mk (getField data "citations")
        else st
      (st', [Item.fwd (line ++ "\n")], false)

/-- End-of-transport handler of variant A (`reason.js` lines 114–121). -/
def doneA (st : StA) : List Item × Bool :=
  match st.citations with
  | none => ([], false)
  | some c =>
      match footAB c with
      | some msg => ([Item.footer msg], false)
      | none => ([], true)

/-- Variant A's streaming transformer over a chunked input. -/
def processStreamingResponseA (chunks : List String) : List Item × Bool :=
  runStream stepA doneA initStA chunks

/-! ## Variant B: `reason.js`, second interceptor (reasoning state machine) -/

/-- State of variant B's `processStreamingResponse`.  `performance.now()` is
modelled by the `tick` counter, advanced once per processed line. -/
structure StB where
  reasoningStarted : Bool
  reasoningEnded : Bool
  startThinkingTime : Option Nat
  citations : Option Json
  tick : Nat
deriving Repr, DecidableEq

/-- Initial state of variant B. -/
def initStB : StB := ⟨false, false, none, none, 0⟩

/-- Delta handling of variant B (`reason.js` lines 361–423), after the
citation capture.  A truthy non-string `delta.reasoning` makes `.replace`
throw, which the surrounding `catch (parseError)` turns into forwarding
the raw line (after the header was already enqueued and the flag set). -/
def evStepB (st : StB) (now : Nat) (data : Json) (line : String) :
    StB × List Item × Bool :=
  match deltaOf data with
  | some (c0, delta) =>
      if reasonGuardNull delta then
        let started := st.reasoningStarted
        let st2 :=
          if started then st
          else { st with reasoningStarted := true, startThinkingTime := some now }
        let hdr : List Item :=
          if started then [] else [Item.header (mkSpread data c0 thinkingText)]
        match getField delta "reasoning" with
        | some (Json.str r) => (st2, hdr ++ [Item.frag (mkSpread data c0 (quoteNl r))], false)
        | _ => (st2, hdr ++ [Item.fwd (line ++ "\n")], false)
      else
        if contentGuardNonNull delta && st.reasoningStarted && !st.reasoningEnded then
          let d := roundSec (now - st.startThinkingTime.getD 0)
          ({ st with reasoningEnded := true },
            [Item.sep (mkSpread data c0 (sepText d)), Item.fwd (line ++ "\n")], false)
        else (st, [Item.fwd (line ++ "\n")], false)
  | none => (st, [Item.fwd (line ++ "\n")], false)

/-- Per-line processing of variant B (`reason.js` lines 329–431). -/
def stepB (st0 : StB) (line : String) : StB × List Item × Bool :=
  let now := st0.tick
  let st := { st0 with tick := st0.tick + 1 }
  match classify line with
  | .raw => (st, [Item.fwd (line ++ "\n")], false)
  | .sentinel =>
      match st.citations with
      | none => (st, [Item.fwd (line ++ "\n")], false)
      | some c =>
          match footAB c with
          | some msg =>
              ({ st with citations := none }, [Item.footer msg, Item.fwd (line ++ "\n")], false)
          | none => (st, [], true)
  | .bad => (st, [Item.fwd (line ++ "\n")], false)
  | .ev data =>
      let st' :=
        if jsTruthyO (getField data "citations") && st.citations.isNone then
          { st with citations := getField data "citations" }
        else st
      evStepB st' now data line

/-- End-of-transport handler of variant B (`reason.js` lines 435–442). -/
def doneB (st : StB) : List Item × Bool :=
  match st.citations with
  | none => ([], false)
  | some c =>
      match footAB c with
      | some msg => ([Item.footer msg], false)
      | none => ([], true)

/-- Variant B's streaming transformer over a chunked input. -/
def processStreamingResponseB (chunks : List String) : List Item × Bool :=
  runStream stepB doneB initStB chunks

/-! ## Variant C: unnamed file, first interceptor -/

/-- State of variant C's `processStreamingResponse`. -/
structure StC where
  reasoningStarted : Bool
  reasoningEnded : Bool
  startThinkingTime : Option Nat
  citations : Option Json
  tick : Nat
deriving Repr, DecidableEq

/-- Initial state of variant C. -/
def initStC : StC := ⟨false, false, none, none, 0⟩

/-- Delta handling of variant C (unnamed file lines 122–169). -/
def evStepC (st : StC) (now : Nat) (data : Json) (line : String) :
    StC × List Item × Bool :=
  match deltaOf data with
  | some (_, delta) =>
      if reasonGuardFalsy delta then
        let started := st.reasoningStarted
        let st2 :=
          if started then st
          else { st with reasoningStarted := true, startThinkingTime := some now }
        let hdr : List Item :=
          if started then [] else [Item.header (mkFresh thinkingText)]
        match getField delta "reasoning" with
        | some (Json.str r) => (st2, hdr ++ [Item.frag (mkFresh (quoteNl r))], false)
        | _ => (st2, hdr ++ [Item.fwd (line ++ "\n")], false)
      else
        if contentGuardDefined delta && st.reasoningStarted && !st.reasoningEnded then
          let d := roundSec (now - st.startThinkingTime.getD 0)
          ({ st with reasoningEnded := true },
            [Item.sep (mkFresh (sepText d)), Item.fwd (line ++ "\n")], false)
        else (st, [Item.fwd (line ++ "\n")], false)
  | none => (st, [Item.fwd (line ++ "\n")], false)

/-- Per-line processing of variant C (unnamed file lines 107–180). -/
def stepC (st0 : StC) (line : String) : StC × List Item × Bool :=
  let now := st0.tick
  let st := { st0 with tick := st0.tick + 1 }
  match classify line with
  | .raw => (st, [Item.fwd (line ++ "\n")], false)
  | .sentinel => (st, [Item.fwd (line ++ "\n")], false)
  | .bad => (st, [Item.fwd (line ++ "\n")], false)
  | .ev data =>
      let st' :=
        if jsTruthyO (getField data "citations") && st.citations.isNone then
          { st with citations := getField data "citations" }
        else st
      evStepC st' now data line

/-- The citation footer text of variant C. -/
def footerTextC (xs : List Json) : String :=
  "\n\n---\n\nSources:\n" ++ String.intercalate "\n" (enumMapNoSp 0 xs)

/-- End-of-transport handler of variant C (unnamed file lines 82–101):
footer only here, guarded by `citations && citations.length > 0`. -/
def doneC (st : StC) : List Item × Bool :=
  match st.citations with
  | none => ([], false)
  | some (Json.arr []) => ([], false)
  | some (Json.arr xs) => ([Item.footer (mkFresh (footerTextC xs))], false)
  | some (Json.str s) => if s = "" then ([], false) else ([], true)
  | some _ => ([], false)

/-- Variant C's streaming transformer over a chunked input. -/
def processStreamingResponseC (chunks : List String) : List Item × Bool :=
  runStream stepC doneC initStC chunks

/-! ## Variant D: unnamed file, second interceptor (citations stripped) -/

/-- State of variant D's `processStreamingResponse`: `let citations = []`
plus the `citationsReceived` first-write flag. -/
structure StD where
  reasoningStarted : Bool
  reasoningEnded : Bool
  startThinkingTime : Option Nat
  citations : Json
  citationsReceived : Bool
  tick : Nat
deriving Repr, DecidableEq

/-- Initial state of variant D. -/
def initStD : StD := ⟨false, false, none, Json.arr [], false, 0⟩

/-- `{...data}` with the `citations` key deleted when truthy (variant D). -/
def cleanOf (data : Json) : Json :=
  if jsTruthyO (getField data "citations") then delF data "citations" else data

/-- Delta handling of variant D (unnamed file lines 430–496): the two
default paths re-serialize the chunk with `citations` stripped. -/
def evStepDCore (st : StD) (now : Nat) (data : Json) (line : String) :
    StD × List Item × Bool :=
  match deltaOf data with
  | some (c0, delta) =>
      if reasonGuardNull delta then
        let started := st.reasoningStarted
        let st2 :=
          if started then st
          else { st with reasoningStarted := true, startThinkingTime := some now }
        let hdr : List Item :=
          if started then [] else [Item.header (mkSpread data c0 thinkingText)]
        match getField delta "reasoning" with
        | some (Json.str r) => (st2, hdr ++ [Item.frag (mkSpread data c0 (quoteNl r))], false)
        | _ => (st2, hdr ++ [Item.fwd (line ++ "\n")], false)
      else
        if contentGuardNonNull delta && st.reasoningStarted && !st.reasoningEnded then
          let d := roundSec (now - st.startThinkingTime.getD 0)
          ({ st with reasoningEnded := true },
            [Item.sep (mkSpread data c0 (sepText d)), Item.fwd (line ++ "\n")], false)
        else
          (st, [Item.clean ("data: " ++ Json.stringify (cleanOf data) ++ "\n\n")], false)
  | none =>
      (st, [Item.clean ("data: " ++ Json.stringify (cleanOf data) ++ "\n\n")], false)

/-- Event processing of variant D (unnamed file lines 416–496): first-write
citation capture, with a citation-only first chunk skipped entirely. -/
def evStepD (st : StD) (now : Nat) (data : Json) (line : String) :
    StD × List Item × Bool :=
  if jsTruthyO (getField data "citations") && !st.citationsReceived then
    let st2 := { st with citations := (getField data "citations").getD Json.null,
                         citationsReceived := true }
    if (fieldsOf data).length = 1 then (st2, [], false)
    else evStepDCore st2 now data line
  else evStepDCore st now data line

/-- Per-line processing of variant D (unnamed file lines 409–503). -/
def stepD (st0 : StD) (line : String) : StD × List Item × Bool :=
  let now := st0.tick
  let st := { st0 with tick := st0.tick + 1 }
  match classify line with
  | .raw => (st, [Item.fwd (line ++ "\n")], false)
  | .sentinel => (st, [Item.fwd (line ++ "\n")], false)
  | .bad => (st, [Item.fwd (line ++ "\n")], false)
  | .ev data => evStepD st now data line

/-- The citation footer text of variant D. -/
def footerTextD (xs : List Json) : String :=
  "\n\n---\n\n" ++ String.intercalate "\n" (enumMapNoSp 0 xs)

/-- End-of-transport handler of variant D (unnamed file lines 386–403). -/
def doneD (st : StD) : List Item × Bool :=
  match st.citations with
  | Json.arr [] => ([], false)
  | Json.arr xs => ([Item.footer (mkFresh (footerTextD xs))], false)
  | Json.str s => if s = "" then ([], false) else ([], true)
  | _ => ([], false)

/-- Variant D's streaming transformer over a chunked input. -/
def processStreamingResponseD (chunks : List String) : List Item × Bool :=
  runStream stepD doneD initStD chunks

/-! ## Batch transformers (`processNonStreamingResponse`) -/

/-- JavaScript `String.prototype.trim` whitespace. -/
def isJsWsT (c : Char) : Bool :=
  c = ' ' || c = '\t' || c = '\n' || c = '\r' ||
  c = Char.ofNat 11 || c = Char.ofNat 12 || c = Char.ofNat 0xa0

/-- `s.trim()`. -/
def jsTrim (s : String) : String :=
  String.mk (((s.data.dropWhile isJsWsT).reverse.dropWhile isJsWsT).reverse)

/-- `reasoning.split('\n').map(l => l.trim() ? '> ' + l : '>').join('\n')`. -/
def quotedReasoningOf (r : String) : String :=
  String.intercalate "\n"
    ((splitNl r).map (fun l => if jsTrim l ≠ "" then "> " ++ l else ">"))

/-- `${message.content}` in a template literal: an absent property
interpolates as the string `undefined`. -/
def contentTemplate (msg : Json) : String :=
  match getField msg "content" with
  | none => "undefined"
  | some j => jsToString j

/-- `data.choices[0].message` together with its choice object. -/
def choiceMsgOf (data : Json) : Option (Json × Json) :=
  match choice0Of data with
  | some c0 =>
      match getField c0 "message" with
      | some m => some (c0, m)
      | none => none
  | none => none

/-- In-place mutation `message.content = newContent` viewed from the root
document: the first choice's message's content is replaced, all other
fields and choices are untouched. -/
def setMsgContent (data c0 msg : Json) (newContent : String) : Json :=
  match getField data "choices" with
  | some (Json.arr (_ :: rest)) =>
      setF data "choices"
        (Json.arr (setF c0 "message" (setF msg "content" (Json.str newContent)) :: rest))
  | _ => data

/-- Variants A and B of `processNonStreamingResponse` (`reason.js` lines
146–185 and 467–506, which are identical): returns the response body.  Any
parse or rewrite failure, and the no-reasoning case, return the original
body.  Citation entries use the `[i] > c` format and the no-citation case
inserts two separators. -/
def processNonStreamingResponseA (body : String) : String :=
  match Json.parse body with
  | none => body
  | some data =>
      match choiceMsgOf data with
      | none => body
      | some (c0, msg) =>
          match getField msg "reasoning" with
          | none => body
          | some rj =>
              if jsTruthy rj then
                match rj with
                | Json.str r =>
                    let q := quotedReasoningOf r
                    let content := contentTemplate msg
                    if jsTruthyO (getField data "citations") then
                      match getField data "citations" with
                      | some (Json.arr xs) =>
                          Json.stringify (setMsgContent data c0 msg
                            (q ++ "\n\n---\n\n" ++ content ++ "\n\n---\n\n" ++
                              String.intercalate "\n" (enumMapAB 0 xs)))
                      | _ => body
                    else
                      Json.stringify (setMsgContent data c0 msg
                        (q ++ "\n\n---\n\n---\n\n" ++ content))
                | _ => body
              else body

/-- Variant C of `processNonStreamingResponse` (unnamed file lines
208–247): as variant A but citation entries use the `[i]> c` format. -/
def processNonStreamingResponseC (body : String) : String :=
  match Json.parse body with
  | none => body
  | some data =>
      match choiceMsgOf data with
      | none => body
      | some (c0, msg) =>
          match getField msg "reasoning" with
          | none => body
          | some rj =>
              if jsTruthy rj then
                match rj with
                | Json.str r =>
                    let q := quotedReasoningOf r
                    let content := contentTemplate msg
                    if jsTruthyO (getField data "citations") then
                      match getField data "citations" with
                      | some (Json.arr xs) =>
                          Json.stringify (setMsgContent data c0 msg
                            (q ++ "\n\n---\n\n" ++ content ++ "\n\n---\n\n" ++
                              String.intercalate "\n" (enumMapNoSp 0 xs)))
                      | _ => body
                    else
                      Json.stringify (setMsgContent data c0 msg
                        (q ++ "\n\n---\n\n---\n\n" ++ content))
                | _ => body
              else body

/-- Variant D of `processNonStreamingResponse` (unnamed file lines
531–570): citation entries use the `[i]> c` format, and the no-citation
case inserts only a single separator. -/
def processNonStreamingResponseD (body : String) : String :=
  match Json.parse body with
  | none => body
  | some data =>
      match choiceMsgOf data with
      | none => body
      | some (c0, msg) =>
          match getField msg "reasoning" with
          | none => body
          | some rj =>
              if jsTruthy rj then
                match rj with
                | Json.str r =>
                    let q := quotedReasoningOf r
                    let content := contentTemplate msg
                    if jsTruthyO (getField data "citations") then
                      match getField data "citations" with
                      | some (Json.arr xs) =>
                          Json.stringify (setMsgContent data c0 msg
                            (q ++ "\n\n---\n\n" ++ content ++ "\n\n---\n\n" ++
                              String.intercalate "\n" (enumMapNoSp 0 xs)))
                      | _ => body
                    else
                      Json.stringify (setMsgContent data c0 msg
                        (q ++ "\n\n---\n\n" ++ content))
                | _ => body
              else body

/-! ## Chunk-boundary invariance of the line buffering -/

/-- Newline-free character lists. -/
def nlFreeL : List Char → Bool
  | [] => true
  | c :: cs => decide (c ≠ '\n') && nlFreeL cs

/-- Newline-free strings (a retained partial line is always one). -/
def nlFree (s : String) : Bool := nlFreeL s.data

/-- Prepend a pending partial line onto the first piece of a split. -/
def consHeadL (pre : List Char) : List (List Char) → List (List Char)
  | [] => [pre]
  | h :: t => (pre ++ h) :: t

/-- The lines drained from the buffer across a whole chunk sequence,
together with the final retained buffer. -/
def feedLines : String → List String → List String × String
  | buf, [] => ([], buf)
  | buf, c :: cs =>
      let parts := splitNl (buf ++ c)
      let r := feedLines (lastD parts "") cs
      (parts.dropLast ++ r.1, r.2)

theorem splitNlL_ne_nil : ∀ cs, splitNlL cs ≠ []
  | [] => by simp [splitNlL]
  | c :: cs => by
      simp only [splitNlL]
      split
      · simp
      · split <;> simp

theorem splitNlL_nlFree : ∀ {cs : List Char}, nlFreeL cs = true → splitNlL cs = [cs]
  | [], _ => rfl
  | c :: cs, h => by
      simp only [nlFreeL, Bool.and_eq_true, decide_eq_true_eq] at h
      simp only [splitNlL, if_neg h.1, splitNlL_nlFree h.2]

theorem lastD_mem_or {α : Type} : ∀ (l : List α) (d : α), lastD l d = d ∨ lastD l d ∈ l
  | [], _ => Or.inl rfl
  | [x], _ => Or.inr (by simp [lastD])
  | x :: y :: t, d => by
      rcases lastD_mem_or (y :: t) d with h | h
      · exact Or.inl (by simpa [lastD] using h)
      · exact Or.inr (by simp [lastD]; right; simpa using h)

theorem lastD_concat {α : Type} : ∀ (l : List α) (x d : α), lastD (l ++ [x]) d = x
  | [], x, d => rfl
  | [a], x, d => rfl
  | a :: b :: t, x, d => by
      have := lastD_concat (b :: t) x d
      simpa [lastD] using this

theorem lastD_append {α : Type} : ∀ (l m : List α) (d : α), m ≠ [] →
    lastD (l ++ m) d = lastD m d
  | [], m, d, _ => rfl
  | [a], m, d, hm => by
      cases m with
      | nil => exact absurd rfl hm
      | cons b t => rfl
  | a :: b :: l, m, d, hm => by
      have := lastD_append (b :: l) m d hm
      simpa [lastD] using this

theorem lastD_map {α β : Type} (f : α → β) : ∀ (l : List α) (d : α),
    lastD (l.map f) (f d) = f (lastD l d)
  | [], d => rfl
  | [x], d => rfl
  | x :: y :: t, d => by
      have := lastD_map f (y :: t) d
      simpa [lastD] using this

theorem dropLast_map {α β : Type} (f : α → β) : ∀ l : List α,
    (l.map f).dropLast = l.dropLast.map f
  | [] => rfl
  | [x] => rfl
  | x :: y :: t => by
      have := dropLast_map f (y :: t)
      simp [List.dropLast, this]

theorem dropLast_append_ne {α : Type} : ∀ (l m : List α), m ≠ [] →
    (l ++ m).dropLast = l ++ m.dropLast
  | [], m, _ => by simp
  | a :: l, m, hm => by
      cases l with
      | nil =>
          cases m with
          | nil => exact absurd rfl hm
          | cons b t => simp [List.dropLast]
      | cons a2 l2 =>
          have := dropLast_append_ne (a2 :: l2) m hm
          simp only [List.cons_append, List.dropLast] at this ⊢
          cases m with
          | nil => exact absurd rfl hm
          | cons b t => simp_all [List.dropLast]

theorem splitNlL_append : ∀ xs ys : List Char,
    splitNlL (xs ++ ys) =
      (splitNlL xs).dropLast ++ consHeadL (lastD (splitNlL xs) []) (splitNlL ys)
  | [], ys => by
      obtain ⟨h, t, hht⟩ := List.exists_cons_of_ne_nil (splitNlL_ne_nil ys)
      simp [splitNlL, hht, consHeadL, lastD]
  | c :: xs, ys => by
      by_cases hc : c = '\n'
      · obtain ⟨h, t, hht⟩ := List.exists_cons_of_ne_nil (splitNlL_ne_nil xs)
        have ih := splitNlL_append xs ys
        simp only [List.cons_append, splitNlL, if_pos hc, hht] at ih ⊢
        simp [ih, hht, List.dropLast, lastD]
      · obtain ⟨h, t, hht⟩ := List.exists_cons_of_ne_nil (splitNlL_ne_nil xs)
        have ih := splitNlL_append xs ys
        simp only [List.cons_append, splitNlL, if_neg hc, hht, List.append_eq]
        cases t with
        | nil =>
            obtain ⟨h3, t3, hht3⟩ := List.exists_cons_of_ne_nil (splitNlL_ne_nil ys)
            have hxy : splitNlL (xs ++ ys) = (h ++ h3) :: t3 := by
              rw [ih, hht, hht3]; simp [consHeadL, lastD]
            rw [hxy, hht3]
            simp [consHeadL, lastD]
        | cons t1 tr =>
            have hxy : splitNlL (xs ++ ys) =
                h :: ((t1 :: tr).dropLast ++ consHeadL (lastD (t1 :: tr) []) (splitNlL ys)) := by
              rw [ih, hht]
              simp [lastD]
            rw [hxy]
            simp [consHeadL, lastD]

theorem lastD_splitNlL_nlFree : ∀ cs : List Char, nlFreeL (lastD (splitNlL cs) []) = true
  | [] => rfl
  | c :: cs => by
      have ih := lastD_splitNlL_nlFree cs
      obtain ⟨h, t, hht⟩ := List.exists_cons_of_ne_nil (splitNlL_ne_nil cs)
      rw [hht] at ih
      by_cases hc : c = '\n'
      · rw [splitNlL, if_pos hc, hht]
        simpa [lastD] using ih
      · rw [splitNlL, if_neg hc, hht]
        cases t with
        | nil =>
            simp only [lastD] at ih ⊢
            simp [nlFreeL, hc, ih]
        | cons t1 tr =>
            simp only [lastD] at ih ⊢
            exact ih

theorem strData_append (s t : String) : (s ++ t).data = s.data ++ t.data := rfl

theorem strExt {a b : String} (h : a.data = b.data) : a = b := by
  cases a; cases b; cases h; rfl

theorem strMk_nil : String.mk [] = "" := rfl

theorem lastD_splitNl (x : String) :
    lastD (splitNl x) "" = String.mk (lastD (splitNlL x.data) []) := by
  have := lastD_map String.mk (splitNlL x.data) []
  rw [strMk_nil] at this
  exact this

theorem splitNlL_rechunk (X R : List Char) :
    splitNlL (X ++ R) = (splitNlL X).dropLast ++ splitNlL (lastD (splitNlL X) [] ++ R) := by
  rw [splitNlL_append X R]
  rw [splitNlL_append (lastD (splitNlL X) []) R,
    splitNlL_nlFree (lastD_splitNlL_nlFree X)]
  simp [lastD, List.dropLast]

theorem splitNl_ne_nil (s : String) : splitNl s ≠ [] := by
  intro h
  have := splitNlL_ne_nil s.data
  simp [splitNl] at h
  exact this h

theorem splitNl_rechunk (x r : String) :
    splitNl (x ++ r) = (splitNl x).dropLast ++ splitNl (lastD (splitNl x) "" ++ r) := by
  show (splitNlL (x ++ r).data).map String.mk = _
  rw [strData_append, splitNlL_rechunk x.data r.data]
  rw [List.map_append]
  have h1 : ((splitNlL x.data).dropLast).map String.mk = (splitNl x).dropLast := by
    rw [splitNl, dropLast_map]
  rw [h1]
  have h2 : (lastD (splitNl x) "" ++ r).data = lastD (splitNlL x.data) [] ++ r.data := by
    rw [strData_append, lastD_splitNl]
  show _ ++ (splitNlL _).map String.mk = _ ++ (splitNlL (lastD (splitNl x) "" ++ r).data).map String.mk
  rw [h2]

theorem concatAll_cons (s : String) (ss : List String) :
    concatAll (s :: ss) = s ++ concatAll ss := rfl

theorem strAppend_assoc (a b c : String) : a ++ b ++ c = a ++ (b ++ c) := by
  apply strExt
  simp [strData_append]

theorem strAppend_nil (s : String) : s ++ "" = s := by
  apply strExt
  show s.data ++ [] = s.data
  simp

theorem nlFree_lastD_splitNl (x : String) : nlFree (lastD (splitNl x) "") = true := by
  rw [lastD_splitNl]
  exact lastD_splitNlL_nlFree x.data

theorem feedLines_spec : ∀ (cs : List String) (buf : String), nlFree buf = true →
    feedLines buf cs =
      ((splitNl (buf ++ concatAll cs)).dropLast, lastD (splitNl (buf ++ concatAll cs)) "")
  | [], buf, hb => by
      have h1 : splitNlL buf.data = [buf.data] := splitNlL_nlFree hb
      have h2 : splitNl buf = [buf] := by
        show (splitNlL buf.data).map String.mk = _
        rw [h1]
        simp [List.map]
      simp [feedLines, concatAll, strAppend_nil, h2, lastD]
  | c :: cs, buf, hb => by
      have hb1 : nlFree (lastD (splitNl (buf ++ c)) "") = true := nlFree_lastD_splitNl _
      have ih := feedLines_spec cs (lastD (splitNl (buf ++ c)) "") hb1
      simp only [feedLines, ih, concatAll_cons]
      rw [← strAppend_assoc buf c (concatAll cs)]
      rw [splitNl_rechunk (buf ++ c) (concatAll cs)]
      rw [dropLast_append_ne _ _ (splitNl_ne_nil _),
        lastD_append _ _ _ (splitNl_ne_nil _)]

/-- Process already-reassembled lines, then the end-of-transport handler. -/
def runLines {σ : Type} (step : σ → String → σ × List Item × Bool)
    (fin : σ → List Item × Bool) (init : σ) (ls : List String) : List Item × Bool :=
  match lineFold step init ls with
  | (_, out, true) => (out, true)
  | (st, out, false) =>
      match fin st with
      | (out2, e) => (out ++ out2, e)

theorem lineFold_append {σ : Type} (step : σ → String → σ × List Item × Bool) :
    ∀ (xs ys : List String) (st : σ),
      lineFold step st (xs ++ ys) =
        (match lineFold step st xs with
         | (st1, out, true) => (st1, out, true)
         | (st1, out, false) =>
             match lineFold step st1 ys with
             | (st2, out2, e) => (st2, out ++ out2, e))
  | [], ys, st => by
      rcases h : lineFold step st ys with ⟨st2, out2, e⟩
      simp [lineFold, h]
  | l :: xs, ys, st => by
      have ih := lineFold_append step xs ys
      simp only [List.cons_append, lineFold, List.append_eq]
      rcases hs : step st l with ⟨st1, out1, e1⟩
      cases e1 with
      | true => rfl
      | false =>
          dsimp only
          rw [ih st1]
          rcases hx : lineFold step st1 xs with ⟨stx, ox, ex⟩
          cases ex with
          | true => simp
          | false =>
              rcases hy : lineFold step stx ys with ⟨sty, oy, ey⟩
              simp [List.append_assoc]

theorem chunkFold_items {σ : Type} (step : σ → String → σ × List Item × Bool) :
    ∀ (cs : List String) (st : σ) (buf : String),
      ((chunkFold step st buf cs).1, (chunkFold step st buf cs).2.2) =
        lineFold step st (feedLines buf cs).1
  | [], _, _ => rfl
  | c :: cs, st, buf => by
      have ih := chunkFold_items step cs
      simp only [chunkFold, feedLines]
      rw [lineFold_append step (splitNl (buf ++ c)).dropLast (feedLines (lastD (splitNl (buf ++ c)) "") cs).1 st]
      rcases hf : lineFold step st (splitNl (buf ++ c)).dropLast with ⟨st1, out1, e1⟩
      cases e1 with
      | true => rfl
      | false =>
          have ih1 := ih st1 (lastD (splitNl (buf ++ c)) "")
          rcases hcf : chunkFold step st1 (lastD (splitNl (buf ++ c)) "") cs with
            ⟨st2, buf2, out2, e2⟩
          rw [hcf] at ih1
          simp only at ih1
          dsimp only
          rw [← ih1]
          simp [hcf]

theorem runStream_lines {σ : Type} (step : σ → String → σ × List Item × Bool)
    (fin : σ → List Item × Bool) (init : σ) (chunks : List String) :
    runStream step fin init chunks = runLines step fin init (feedLines "" chunks).1 := by
  unfold runStream runLines
  have h := chunkFold_items step chunks init ""
  rcases hc : chunkFold step init "" chunks with ⟨st, buf, out, e⟩
  rw [hc] at h
  rw [← h]
  cases e with
  | true => rfl
  | false => rfl

/-- Variant A at the line level. -/
def runLinesA (ls : List String) : List Item × Bool := runLines stepA doneA initStA ls

/-- Variant B at the line level. -/
def runLinesB (ls : List String) : List Item × Bool := runLines stepB doneB initStB ls

/-- Variant C at the line level. -/
def runLinesC (ls : List String) : List Item × Bool := runLines stepC doneC initStC ls

/-- Variant D at the line level. -/
def runLinesD (ls : List String) : List Item × Bool := runLines stepD doneD initStD ls

theorem processA_lines (chunks : List String) :
    processStreamingResponseA chunks = runLinesA (feedLines "" chunks).1 :=
  runStream_lines stepA doneA initStA chunks

theorem processB_lines (chunks : List String) :
    processStreamingResponseB chunks = runLinesB (feedLines "" chunks).1 :=
  runStream_lines stepB doneB initStB chunks

theorem processC_lines (chunks : List String) :
    processStreamingResponseC chunks = runLinesC (feedLines "" chunks).1 :=
  runStream_lines stepC doneC initStC chunks

theorem processD_lines (chunks : List String) :
    processStreamingResponseD chunks = runLinesD (feedLines "" chunks).1 :=
  runStream_lines stepD doneD initStD chunks

theorem strNil_append (s : String) : "" ++ s = s := strExt rfl

theorem concatAll_append : ∀ xs ys : List String,
    concatAll (xs ++ ys) = concatAll xs ++ concatAll ys
  | [], ys => by simp [concatAll, strNil_append]
  | x :: xs, ys => by
      simp only [List.cons_append, concatAll, List.append_eq, concatAll_append xs ys]
      rw [strAppend_assoc]

theorem splitNl_nlFree {s : String} (h : nlFree s = true) : splitNl s = [s] := by
  show (splitNlL s.data).map String.mk = [s]
  rw [splitNlL_nlFree h]
  simp

theorem nlFreeL_append : ∀ {a b : List Char}, nlFreeL a = true → nlFreeL b = true →
    nlFreeL (a ++ b) = true
  | [], _, _, hb => hb
  | c :: a, b, ha, hb => by
      simp only [nlFreeL, Bool.and_eq_true] at ha ⊢
      exact ⟨ha.1, nlFreeL_append ha.2 hb⟩

theorem nlFree_append {a b : String} (ha : nlFree a = true) (hb : nlFree b = true) :
    nlFree (a ++ b) = true := by
  show nlFreeL (a ++ b).data = true
  rw [strData_append]
  exact nlFreeL_append ha hb

/-- **C5.**  The line buffering is chunk-boundary-invariant: any two
chunkings of the same text drain the same sequence of complete lines, and
every streaming transformer produces the same output on them. -/
theorem claim_C5 (cs1 cs2 : List String) (h : concatAll cs1 = concatAll cs2) :
    (feedLines "" cs1).1 = (feedLines "" cs2).1 ∧
    processStreamingResponseA cs1 = processStreamingResponseA cs2 ∧
    processStreamingResponseB cs1 = processStreamingResponseB cs2 ∧
    processStreamingResponseC cs1 = processStreamingResponseC cs2 ∧
    processStreamingResponseD cs1 = processStreamingResponseD cs2 := by
  have hf : feedLines "" cs1 = feedLines "" cs2 := by
    rw [feedLines_spec cs1 "" rfl, feedLines_spec cs2 "" rfl, h]
  refine ⟨by rw [hf], ?_, ?_, ?_, ?_⟩ <;>
    simp [processA_lines, processB_lines, processC_lines, processD_lines, hf]

/-- Witness for C5 at a concrete re-chunking. -/
theorem claim_C5_witness :
    concatAll ["ab\ncd", "e\n"] = concatAll ["ab", "\ncd", "e", "\n"] ∧
    ((feedLines "" ["ab\ncd", "e\n"]).1 = (feedLines "" ["ab", "\ncd", "e", "\n"]).1 ∧
     processStreamingResponseA ["ab\ncd", "e\n"] = processStreamingResponseA ["ab", "\ncd", "e", "\n"] ∧
     processStreamingResponseB ["ab\ncd", "e\n"] = processStreamingResponseB ["ab", "\ncd", "e", "\n"] ∧
     processStreamingResponseC ["ab\ncd", "e\n"] = processStreamingResponseC ["ab", "\ncd", "e", "\n"] ∧
     processStreamingResponseD ["ab\ncd", "e\n"] = processStreamingResponseD ["ab", "\ncd", "e", "\n"]) :=
  ⟨by decide, claim_C5 _ _ (by decide)⟩

/-- **C10.**  A trailing input segment not terminated by the line
separator is retained verbatim in the buffer and never emitted: appending
it to any chunked input leaves the drained lines and the whole output of
the cited streaming transformers unchanged. -/
theorem claim_C10 (cs : List String) (t : String) (h : nlFree t = true) :
    (feedLines "" (cs ++ [t])).1 = (feedLines "" cs).1 ∧
    (feedLines "" (cs ++ [t])).2 = (feedLines "" cs).2 ++ t ∧
    processStreamingResponseA (cs ++ [t]) = processStreamingResponseA cs ∧
    processStreamingResponseC (cs ++ [t]) = processStreamingResponseC cs := by
  have hcat : concatAll (cs ++ [t]) = concatAll cs ++ t := by
    rw [concatAll_append]
    simp [concatAll, strAppend_nil]
  have hfree : nlFree (lastD (splitNl ("" ++ concatAll cs)) "" ++ t) = true :=
    nlFree_append (nlFree_lastD_splitNl _) h
  have hA : feedLines "" (cs ++ [t]) = ((feedLines "" cs).1, (feedLines "" cs).2 ++ t) := by
    rw [feedLines_spec _ "" rfl, feedLines_spec cs "" rfl, hcat, ← strAppend_assoc]
    rw [splitNl_rechunk ("" ++ concatAll cs) t, splitNl_nlFree hfree]
    rw [List.dropLast_concat, lastD_concat]
  refine ⟨by rw [hA], by rw [hA], ?_, ?_⟩ <;>
    simp [processA_lines, processC_lines, hA]

/-- Witness for C10: a concrete unterminated tail is dropped. -/
theorem claim_C10_witness :
    nlFree "tail" = true ∧
    ((feedLines "" (["x\ny"] ++ ["tail"])).1 = (feedLines "" ["x\ny"]).1 ∧
     (feedLines "" (["x\ny"] ++ ["tail"])).2 = (feedLines "" ["x\ny"]).2 ++ "tail" ∧
     processStreamingResponseA (["x\ny"] ++ ["tail"]) = processStreamingResponseA ["x\ny"] ∧
     processStreamingResponseC (["x\ny"] ++ ["tail"]) = processStreamingResponseC ["x\ny"]) :=
  ⟨by decide, claim_C10 ["x\ny"] "tail" (by decide)⟩

/-! ## C6: malformed JSON lines -/

/-- **C6.**  A `data: `-prefixed, non-sentinel line whose payload fails to
parse is forwarded verbatim by the cited transformers (variants A and C),
with no error signalled, the state unchanged (up to the clock tick), and
every subsequent line still processed. -/
theorem claim_C6 (st : StA) (stc : StC) (l : String) (rest : List String)
    (h1 : leadsWith "data: ".data l.data = true)
    (h2 : hasSub "[DONE]".data l.data = false)
    (h3 : Json.parse (String.mk (l.data.drop 6)) = none) :
    stepA st l = (st, [Item.fwd (l ++ "\n")], false) ∧
    stepC stc l = ({ stc with tick := stc.tick + 1 }, [Item.fwd (l ++ "\n")], false) ∧
    lineFold stepA st (l :: rest) =
      ((lineFold stepA st rest).1,
       Item.fwd (l ++ "\n") :: (lineFold stepA st rest).2.1,
       (lineFold stepA st rest).2.2) ∧
    lineFold stepC stc (l :: rest) =
      ((lineFold stepC { stc with tick := stc.tick + 1 } rest).1,
       Item.fwd (l ++ "\n") :: (lineFold stepC { stc with tick := stc.tick + 1 } rest).2.1,
       (lineFold stepC { stc with tick := stc.tick + 1 } rest).2.2) := by
  have hcl : classify l = .bad := by
    simp [classify, h1, h2, h3]
  have hA : stepA st l = (st, [Item.fwd (l ++ "\n")], false) := by
    simp [stepA, hcl]
  have hC : stepC stc l = ({ stc with tick := stc.tick + 1 }, [Item.fwd (l ++ "\n")], false) := by
    simp [stepC, hcl]
  refine ⟨hA, hC, ?_, ?_⟩
  · simp only [lineFold, hA]
    rcases hr : lineFold stepA st rest with ⟨st2, out2, e2⟩
    simp
  · simp only [lineFold, hC]
    rcases hr : lineFold stepC { stc with tick := stc.tick + 1 } rest with ⟨st2, out2, e2⟩
    simp

/-- Witness for C6 on a concrete malformed line followed by a sentinel. -/
theorem claim_C6_witness :
    leadsWith "data: ".data "data: \x7boops".data = true ∧
    hasSub "[DONE]".data "data: \x7boops".data = false ∧
    Json.parse (String.mk ("data: \x7boops".data.drop 6)) = none ∧
    (stepA initStA "data: \x7boops" = (initStA, [Item.fwd ("data: \x7boops" ++ "\n")], false) ∧
     stepC initStC "data: \x7boops" =
       ({ initStC with tick := initStC.tick + 1 }, [Item.fwd ("data: \x7boops" ++ "\n")], false) ∧
     lineFold stepA initStA ("data: \x7boops" :: ["data: [DONE]"]) =
       ((lineFold stepA initStA ["data: [DONE]"]).1,
        Item.fwd ("data: \x7boops" ++ "\n") :: (lineFold stepA initStA ["data: [DONE]"]).2.1,
        (lineFold stepA initStA ["data: [DONE]"]).2.2) ∧
     lineFold stepC initStC ("data: \x7boops" :: ["data: [DONE]"]) =
       ((lineFold stepC { initStC with tick := initStC.tick + 1 } ["data: [DONE]"]).1,
        Item.fwd ("data: \x7boops" ++ "\n") ::
          (lineFold stepC { initStC with tick := initStC.tick + 1 } ["data: [DONE]"]).2.1,
        (lineFold stepC { initStC with tick := initStC.tick + 1 } ["data: [DONE]"]).2.2)) :=
  ⟨by decide, by decide, by decide,
    claim_C6 initStA initStC "data: \x7boops" ["data: [DONE]"] (by decide) (by decide) (by decide)⟩

/-! ## C2: the NotStarted reasoning transition -/

/-- A reasoning fragment whose delta has no `content` key at all. -/
def exDeltaNoC : Json := Json.obj [("reasoning", Json.str "hm")]

/-- Its choice object. -/
def exChoiceNoC : Json := Json.obj [("delta", exDeltaNoC)]

/-- Its event document. -/
def exDataNoC : Json := Json.obj [("choices", Json.arr [exChoiceNoC])]

/-- Its wire line. -/
def exLineNoC : String := "data: " ++ Json.stringify exDataNoC

/-- **C2, counterexample.**  In the `reason.js` transformer (variant B) a
reasoning event whose `content` key is entirely absent does *not* start
the session: the line is forwarded unchanged, no header is emitted, and
the phase stays NotStarted — refuting the claim for the absent-key case. -/
theorem claim_C2_counterexample :
    stepB initStB exLineNoC = ({ initStB with tick := 1 }, [Item.fwd (exLineNoC ++ "\n")], false) ∧
    (stepB initStB exLineNoC).1.reasoningStarted = false ∧
    (stepB initStB exLineNoC).1.startThinkingTime = none ∧
    countP Item.isHeader (stepB initStB exLineNoC).2.1 = 0 := by
  decide

/-- **C2, amended.**  On a reasoning event arriving in phase NotStarted
with a non-empty string `reasoning`: when `content` is the JSON value
`null`, both the `reason.js` (B) and the unnamed-file (C) transformers
record `startedAt = now`, emit the synthetic header before the rewritten
fragment, and move to Active; when the `content` key is entirely absent,
only variant C does so — variant B's `content === null` guard fails and
the fragment is forwarded unchanged with no transition. -/
theorem claim_C2
    (stB : StB) (stC stC2 : StC)
    (lineB lineC lineC2 : String) (dataB c0B deltaB dataC deltaC dataC2 deltaC2 : Json)
    (rB rC rC2 : String) (c0C c0C2 : Json)
    (hB0 : stB.reasoningStarted = false) (hC0 : stC.reasoningStarted = false)
    (hC20 : stC2.reasoningStarted = false)
    (hclB : classify lineB = .ev dataB)
    (hcitB : getField dataB "citations" = none)
    (hdB : deltaOf dataB = some (c0B, deltaB))
    (hrB : getField deltaB "reasoning" = some (Json.str rB)) (hneB : rB ≠ "")
    (hcontB : getField deltaB "content" = some Json.null)
    (hclC : classify lineC = .ev dataC)
    (hcitC : getField dataC "citations" = none)
    (hdC : deltaOf dataC = some (c0C, deltaC))
    (hrC : getField deltaC "reasoning" = some (Json.str rC)) (hneC : rC ≠ "")
    (hcontC : getField deltaC "content" = some Json.null)
    (hclC2 : classify lineC2 = .ev dataC2)
    (hcitC2 : getField dataC2 "citations" = none)
    (hdC2 : deltaOf dataC2 = some (c0C2, deltaC2))
    (hrC2 : getField deltaC2 "reasoning" = some (Json.str rC2)) (hneC2 : rC2 ≠ "")
    (hcontC2 : getField deltaC2 "content" = none) :
    stepB stB lineB =
      ({ stB with reasoningStarted := true, startThinkingTime := some stB.tick,
                  tick := stB.tick + 1 },
       [Item.header (mkSpread dataB c0B thinkingText),
        Item.frag (mkSpread dataB c0B (quoteNl rB))], false) ∧
    stepC stC lineC =
      ({ stC with reasoningStarted := true, startThinkingTime := some stC.tick,
                  tick := stC.tick + 1 },
       [Item.header (mkFresh thinkingText), Item.frag (mkFresh (quoteNl rC))], false) ∧
    stepC stC2 lineC2 =
      ({ stC2 with reasoningStarted := true, startThinkingTime := some stC2.tick,
                   tick := stC2.tick + 1 },
       [Item.header (mkFresh thinkingText), Item.frag (mkFresh (quoteNl rC2))], false) := by
  refine ⟨?_, ?_, ?_⟩
  · have hg : reasonGuardNull deltaB = true := by
      simp [reasonGuardNull, hrB, hcontB, jsTruthyO, jsTruthy, hneB]
    simp [stepB, hclB, hcitB, evStepB, hdB, hg, hrB, hB0, jsTruthyO]
  · have hg : reasonGuardFalsy deltaC = true := by
      simp [reasonGuardFalsy, hrC, hcontC, jsTruthyO, jsTruthy, hneC]
    simp [stepC, hclC, hcitC, evStepC, hdC, hg, hrC, hC0, jsTruthyO]
  · have hg : reasonGuardFalsy deltaC2 = true := by
      simp [reasonGuardFalsy, hrC2, hcontC2, jsTruthyO, jsTruthy, hneC2]
    simp [stepC, hclC2, hcitC2, evStepC, hdC2, hg, hrC2, hC20, jsTruthyO]

/-- A reasoning fragment with `content: null`. -/
def exDeltaRN : Json := Json.obj [("reasoning", Json.str "hm"), ("content", Json.null)]

/-- Its choice object. -/
def exChoiceRN : Json := Json.obj [("delta", exDeltaRN)]

/-- Its event document. -/
def exDataRN : Json := Json.obj [("choices", Json.arr [exChoiceRN])]

/-- Its wire line. -/
def exLineRN : String := "data: " ++ Json.stringify exDataRN

/-- Witness for the amended C2 at concrete events. -/
theorem claim_C2_witness :
    (initStB.reasoningStarted = false ∧ initStC.reasoningStarted = false ∧
     classify exLineRN = .ev exDataRN ∧ getField exDataRN "citations" = none ∧
     deltaOf exDataRN = some (exChoiceRN, exDeltaRN) ∧
     getField exDeltaRN "reasoning" = some (Json.str "hm") ∧
     getField exDeltaRN "content" = some Json.null ∧
     classify exLineNoC = .ev exDataNoC ∧
     deltaOf exDataNoC = some (exChoiceNoC, exDeltaNoC) ∧
     getField exDeltaNoC "content" = none) ∧
    (stepB initStB exLineRN =
      ({ initStB with reasoningStarted := true, startThinkingTime := some initStB.tick,
                      tick := initStB.tick + 1 },
       [Item.header (mkSpread exDataRN exChoiceRN thinkingText),
        Item.frag (mkSpread exDataRN exChoiceRN (quoteNl "hm"))], false) ∧
     stepC initStC exLineRN =
      ({ initStC with reasoningStarted := true, startThinkingTime := some initStC.tick,
                      tick := initStC.tick + 1 },
       [Item.header (mkFresh thinkingText), Item.frag (mkFresh (quoteNl "hm"))], false) ∧
     stepC initStC exLineNoC =
      ({ initStC with reasoningStarted := true, startThinkingTime := some initStC.tick,
                      tick := initStC.tick + 1 },
       [Item.header (mkFresh thinkingText), Item.frag (mkFresh (quoteNl "hm"))], false)) :=
  ⟨by decide,
   claim_C2 initStB initStC initStC exLineRN exLineRN exLineNoC exDataRN exChoiceRN exDeltaRN
     exDataRN exDeltaRN exDataNoC exDeltaNoC "hm" "hm" "hm" exChoiceRN exChoiceNoC
     (by decide) (by decide) (by decide) (by decide) (by decide) (by decide) (by decide)
     (by decide) (by decide) (by decide) (by decide) (by decide) (by decide) (by decide)
     (by decide) (by decide) (by decide) (by decide) (by decide) (by decide) (by decide)⟩

/-! ## C3: citation stripping -/

theorem getField_delF (j : Json) (k : String) : getField (delF j k) k = none := by
  simp only [delF, getField]
  have h : ((fieldsOf j).filter (fun p => decide (p.1 ≠ k))).find?
      (fun p => decide (p.1 = k)) = none := by
    apply List.find?_eq_none.mpr
    intro x hx
    simp only [List.mem_filter, decide_eq_true_eq] at hx
    simp [hx.2]
  rw [h]
  rfl

/-- A citation-only event document. -/
def exCitData : Json := Json.obj [("citations", Json.arr [Json.str "u"])]

/-- Its wire line. -/
def exCitLine : String := "data: " ++ Json.stringify exCitData

/-- **C3, counterexample.**  In the `reason.js` transformer (variant A) a
data line carrying a `citations` field is captured but forwarded verbatim:
the only emitted chunk is the raw line, `citations` key included —
refuting the claim that every forwarded copy has the key removed. -/
theorem claim_C3_counterexample :
    stepA initStA exCitLine =
      (StA.mk (some (Json.arr [Json.str "u"])), [Item.fwd (exCitLine ++ "\n")], false) ∧
    hasSub "citations".data (exCitLine ++ "\n").data = true := by
  decide

/-- **C3, amended.**  Citation-bearing chunks are not uniformly stripped:
variant A (`reason.js`) forwards every decoded event line verbatim; the
unnamed file's second transformer (D) strips the `citations` key only on
its two default re-serialization paths, drops a first-seen citation-only
chunk entirely, and on its duration-separator path forwards the raw line
(citations intact). -/
theorem claim_C3
    (stA : StA) (lineA : String) (dataA : Json)
    (hclA : classify lineA = .ev dataA)
    (stD : StD) (lineD : String) (dataD : Json)
    (hclD : classify lineD = .ev dataD)
    (hrecD : stD.citationsReceived = true) (hndD : deltaOf dataD = none)
    (hcitD : jsTruthyO (getField dataD "citations") = true)
    (stD2 : StD) (lineD2 : String) (dataD2 c0D2 deltaD2 : Json)
    (hclD2 : classify lineD2 = .ev dataD2) (hrecD2 : stD2.citationsReceived = true)
    (hdD2 : deltaOf dataD2 = some (c0D2, deltaD2))
    (hgD2 : reasonGuardNull deltaD2 = false) (hcD2 : contentGuardNonNull deltaD2 = true)
    (hstD2 : stD2.reasoningStarted = true) (hendD2 : stD2.reasoningEnded = false)
    (stD3 : StD) (lineD3 : String) (dataD3 : Json)
    (hclD3 : classify lineD3 = .ev dataD3)
    (hrecD3 : stD3.citationsReceived = false)
    (hcitD3 : jsTruthyO (getField dataD3 "citations") = true)
    (hlenD3 : (fieldsOf dataD3).length = 1) :
    (stepA stA lineA).2.1 = [Item.fwd (lineA ++ "\n")] ∧
    stepD stD lineD = ({ stD with tick := stD.tick + 1 },
      [Item.clean ("data: " ++ Json.stringify (delF dataD "citations") ++ "\n\n")], false) ∧
    getField (delF dataD "citations") "citations" = none ∧
    (stepD stD2 lineD2).2.1 =
      [Item.sep (mkSpread dataD2 c0D2
        (sepText (roundSec (stD2.tick - stD2.startThinkingTime.getD 0)))),
       Item.fwd (lineD2 ++ "\n")] ∧
    stepD stD3 lineD3 = ({ stD3 with
        citations := (getField dataD3 "citations").getD Json.null,
        citationsReceived := true, tick := stD3.tick + 1 }, [], false) := by
  refine ⟨?_, ?_, getField_delF dataD "citations", ?_, ?_⟩
  · simp [stepA, hclA]
  · simp [stepD, hclD, evStepD, hrecD, evStepDCore, hndD, cleanOf, hcitD]
  · simp [stepD, hclD2, evStepD, hrecD2, evStepDCore, hdD2, hgD2, hcD2, hstD2, hendD2]
  · simp [stepD, hclD3, evStepD, hrecD3, hcitD3, hlenD3]

/-- A citations-plus-extra-field event document. -/
def exCitXData : Json := Json.obj [("citations", Json.arr [Json.str "u"]), ("x", Json.num 1)]

/-- Its wire line. -/
def exCitXLine : String := "data: " ++ Json.stringify exCitXData

/-- A content delta. -/
def exDeltaCont : Json := Json.obj [("content", Json.str "hi")]

/-- Its choice object. -/
def exChoiceCont : Json := Json.obj [("delta", exDeltaCont)]

/-- A content event that also carries citations. -/
def exContCitData : Json :=
  Json.obj [("citations", Json.arr [Json.str "u"]), ("choices", Json.arr [exChoiceCont])]

/-- Its wire line. -/
def exContCitLine : String := "data: " ++ Json.stringify exContCitData

/-- A variant-D state in the Active phase with citations already captured. -/
def exStD2 : StD := ⟨true, false, some 0, Json.arr [], true, 5⟩

/-- A variant-D state that has already captured citations. -/
def exStD1 : StD := ⟨false, false, none, Json.arr [], true, 0⟩

/-- Witness for the amended C3 at concrete chunks. -/
theorem claim_C3_witness :
    (classify exCitLine = .ev exCitData ∧
     classify exCitXLine = .ev exCitXData ∧ deltaOf exCitXData = none ∧
     jsTruthyO (getField exCitXData "citations") = true ∧
     classify exContCitLine = .ev exContCitData ∧
     deltaOf exContCitData = some (exChoiceCont, exDeltaCont) ∧
     reasonGuardNull exDeltaCont = false ∧ contentGuardNonNull exDeltaCont = true ∧
     (fieldsOf exCitData).length = 1) ∧
    ((stepA initStA exCitLine).2.1 = [Item.fwd (exCitLine ++ "\n")] ∧
     stepD exStD1 exCitXLine = ({ exStD1 with tick := exStD1.tick + 1 },
       [Item.clean ("data: " ++ Json.stringify (delF exCitXData "citations") ++ "\n\n")], false) ∧
     getField (delF exCitXData "citations") "citations" = none ∧
     (stepD exStD2 exContCitLine).2.1 =
       [Item.sep (mkSpread exContCitData exChoiceCont
         (sepText (roundSec (exStD2.tick - exStD2.startThinkingTime.getD 0)))),
        Item.fwd (exContCitLine ++ "\n")] ∧
     stepD initStD exCitLine = ({ initStD with
       citations := (getField exCitData "citations").getD Json.null,
       citationsReceived := true, tick := initStD.tick + 1 }, [], false)) :=
  ⟨by decide,
   claim_C3 initStA exCitLine exCitData (by decide)
     exStD1 exCitXLine exCitXData (by decide) (by decide) (by decide) (by decide)
     exStD2 exContCitLine exContCitData exChoiceCont exDeltaCont (by decide) (by decide)
     (by decide) (by decide) (by decide) (by decide) (by decide)
     initStD exCitLine exCitData (by decide) (by decide) (by decide) (by decide)⟩

/-! ## C7: pass-through of reasoning-free streams -/

/-- A line the variant-B transformer forwards unchanged: any non-event
line, the sentinel, a malformed line, or a decoded event with no truthy
`citations` field and no `reasoning` key on its delta. -/
def passThruB (l : String) : Bool :=
  match classify l with
  | .raw => true
  | .sentinel => true
  | .bad => true
  | .ev d =>
      !jsTruthyO (getField d "citations") &&
      (match deltaOf d with
       | some (_, delta) => (getField delta "reasoning").isNone
       | none => true)

theorem stepB_passthru (st : StB) (l : String) (hp : passThruB l = true)
    (hs : st.reasoningStarted = false) (hc : st.citations = none) :
    stepB st l = ({ st with tick := st.tick + 1 }, [Item.fwd (l ++ "\n")], false) := by
  unfold stepB
  cases hcl : classify l with
  | raw => simp
  | sentinel => simp [hc]
  | bad => simp
  | ev d =>
      simp only [passThruB, hcl, Bool.and_eq_true, Bool.not_eq_true'] at hp
      obtain ⟨h1, h2⟩ := hp
      simp only [h1, Bool.false_and, if_false, Bool.false_eq_true]
      unfold evStepB
      cases hdo : deltaOf d with
      | none => simp
      | some p =>
          rcases p with ⟨c0, delta⟩
          rw [hdo] at h2
          simp only at h2
          have hg : reasonGuardNull delta = false := by
            simp only [reasonGuardNull]
            rw [Option.isNone_iff_eq_none] at h2
            simp [h2, jsTruthyO]
          simp [hg, hs]

theorem foldB_passthru : ∀ (ls : List String) (st : StB),
    (∀ l ∈ ls, passThruB l = true) → st.reasoningStarted = false → st.citations = none →
    lineFold stepB st ls =
      ({ st with tick := st.tick + ls.length },
       ls.map (fun l => Item.fwd (l ++ "\n")), false)
  | [], st, _, _, _ => by simp [lineFold]
  | l :: ls, st, h, hs, hc => by
      have hstep := stepB_passthru st l (h l (by simp)) hs hc
      have ih := foldB_passthru ls { st with tick := st.tick + 1 }
        (fun x hx => h x (by simp [hx])) hs hc
      simp only [lineFold, hstep, ih]
      have harith : st.tick + 1 + ls.length = st.tick + (ls.length + 1) := by omega
      simp [harith]

/-- Reassemble split pieces with the separators put back. -/
def reJoinNl : List (List Char) → List Char
  | [] => []
  | [p] => p
  | p :: q :: rest => p ++ '\n' :: reJoinNl (q :: rest)

theorem reJoinNl_splitNlL : ∀ cs : List Char, reJoinNl (splitNlL cs) = cs
  | [] => rfl
  | c :: cs => by
      have ih := reJoinNl_splitNlL cs
      obtain ⟨h, t, hht⟩ := List.exists_cons_of_ne_nil (splitNlL_ne_nil cs)
      rw [hht] at ih
      by_cases hc : c = '\n'
      · rw [splitNlL, if_pos hc, hht]
        simp only [reJoinNl]
        rw [ih, hc]
        rfl
      · rw [splitNlL, if_neg hc, hht]
        cases t with
        | nil => simp only [reJoinNl] at ih ⊢; rw [ih]
        | cons t1 tr =>
            simp only [reJoinNl] at ih ⊢
            rw [List.cons_append, ih]

theorem reJoinNl_flat : ∀ ps : List (List Char), ps ≠ [] → lastD ps [] = [] →
    reJoinNl ps = (ps.dropLast.map (fun p => p ++ ['\n'])).join
  | [], h, _ => absurd rfl h
  | [p], _, hl => by
      simp only [lastD] at hl
      simp [reJoinNl, hl]
  | p :: q :: rest, _, hl => by
      have ih := reJoinNl_flat (q :: rest) (by simp) (by simpa [lastD] using hl)
      simp only [reJoinNl, ih, List.dropLast, List.map, List.join]
      simp

theorem concatAll_data : ∀ ls : List String, (concatAll ls).data = (ls.map String.data).join
  | [] => rfl
  | s :: ls => by
      simp only [concatAll, strData_append, List.map, concatAll_data ls, List.flatten_cons]

theorem concat_dropLast_splitNl (s : String) (h : lastD (splitNl s) "" = "") :
    concatAll (((splitNl s).dropLast).map (fun l => l ++ "\n")) = s := by
  apply strExt
  rw [concatAll_data]
  have hmap : (((splitNl s).dropLast).map (fun l => l ++ "\n")).map String.data =
      ((splitNlL s.data).dropLast).map (fun p => p ++ ['\n']) := by
    show ((((splitNlL s.data).map String.mk).dropLast).map (fun l => l ++ "\n")).map String.data = _
    rw [dropLast_map]
    rw [List.map_map, List.map_map]
    apply List.map_congr_left
    intro p _
    rfl
  rw [hmap]
  have hl : lastD (splitNlL s.data) [] = [] := by
    have := lastD_splitNl s
    rw [h] at this
    have h2 := congrArg String.data this.symm
    exact h2
  rw [← reJoinNl_flat (splitNlL s.data) (splitNlL_ne_nil s.data) hl]
  exact reJoinNl_splitNlL s.data

/-- A reasoning-free, citation-free event line. -/
def exSimpleLine : String := "data: " ++ Json.stringify (Json.obj [("a", Json.num 1)])

/-- Does a decoded event line carry a `reasoning` key on its delta? -/
def carriesReasoning (l : String) : Bool :=
  match classify l with
  | .ev d =>
      match deltaOf d with
      | some (_, delta) => (getField delta "reasoning").isSome
      | none => false
  | _ => false

/-- **C7, counterexample.**  Byte-identity fails on reasoning-free streams:
the `reason.js` transformer appends a synthetic citation footer when any
event carried citations, and the unnamed file's second transformer
re-serializes every well-formed data event (with blank-line framing), so
neither output equals the input on these reasoning-free inputs. -/
theorem claim_C7_counterexample :
    carriesReasoning exCitLine = false ∧
    outputOf (processStreamingResponseB [exCitLine ++ "\n"]) ≠ exCitLine ++ "\n" ∧
    carriesReasoning exSimpleLine = false ∧
    outputOf (processStreamingResponseD [exSimpleLine ++ "\n"]) ≠ exSimpleLine ++ "\n" := by
  decide

/-- **C7, amended.**  For a stream none of whose events carries a truthy
`citations` field or a `reasoning` key, the `reason.js` transformer
(variant B) forwards every line unchanged with no synthetic event, and
its output is byte-identical to any input text that ends with the line
separator. -/
theorem claim_C7 (ls : List String) (h : ∀ l ∈ ls, passThruB l = true) (s : String)
    (hs1 : ∀ l ∈ (splitNl s).dropLast, passThruB l = true)
    (hs2 : lastD (splitNl s) "" = "") :
    runLinesB ls = (ls.map (fun l => Item.fwd (l ++ "\n")), false) ∧
    outputOf (runLinesB ls) = concatAll (ls.map (fun l => l ++ "\n")) ∧
    outputOf (processStreamingResponseB [s]) = s := by
  have hrun : ∀ (ms : List String), (∀ l ∈ ms, passThruB l = true) →
      runLinesB ms = (ms.map (fun l => Item.fwd (l ++ "\n")), false) := by
    intro ms hms
    unfold runLinesB runLines
    rw [foldB_passthru ms initStB hms rfl rfl]
    simp [doneB, initStB]
  have hf : (Item.render ∘ fun l => Item.fwd (l ++ "\n")) = (fun l : String => l ++ "\n") := by
    funext l
    rfl
  refine ⟨hrun ls h, ?_, ?_⟩
  · rw [hrun ls h]
    simp only [outputOf, List.map_map, hf]
  · rw [processB_lines]
    have hfeed : (feedLines "" [s]).1 = (splitNl s).dropLast := by
      rw [feedLines_spec [s] "" rfl]
      simp [concatAll, strAppend_nil, strNil_append]
    rw [hfeed, hrun _ hs1]
    have hmm : outputOf ((splitNl s).dropLast.map (fun l => Item.fwd (l ++ "\n")), false) =
        concatAll (((splitNl s).dropLast).map (fun l => l ++ "\n")) := by
      simp only [outputOf, List.map_map, hf]
    rw [hmm]
    exact concat_dropLast_splitNl s hs2

/-- Witness for the amended C7 on a concrete reasoning-free stream. -/
theorem claim_C7_witness :
    (∀ l ∈ [":ok", exSimpleLine, "data: [DONE]"], passThruB l = true) ∧
    (∀ l ∈ (splitNl ":ok\ndata: [DONE]\n").dropLast, passThruB l = true) ∧
    lastD (splitNl ":ok\ndata: [DONE]\n") "" = "" ∧
    (runLinesB [":ok", exSimpleLine, "data: [DONE]"] =
       ([":ok", exSimpleLine, "data: [DONE]"].map (fun l => Item.fwd (l ++ "\n")), false) ∧
     outputOf (runLinesB [":ok", exSimpleLine, "data: [DONE]"]) =
       concatAll ([":ok", exSimpleLine, "data: [DONE]"].map (fun l => l ++ "\n")) ∧
     outputOf (processStreamingResponseB [":ok\ndata: [DONE]\n"]) = ":ok\ndata: [DONE]\n") :=
  ⟨by decide, by decide, by decide,
   claim_C7 [":ok", exSimpleLine, "data: [DONE]"] (by decide) ":ok\ndata: [DONE]\n"
     (by decide) (by decide)⟩

/-! ## C1 and C4: counting and ordering of the synthetic events -/

/-- Does the line take variant B's reasoning branch? -/
def isReasoningLineB (l : String) : Bool :=
  match classify l with
  | .ev d =>
      match deltaOf d with
      | some (_, delta) => reasonGuardNull delta
      | none => false
  | _ => false

/-- Does the line take variant C's reasoning branch? -/
def isReasoningLineC (l : String) : Bool :=
  match classify l with
  | .ev d =>
      match deltaOf d with
      | some (_, delta) => reasonGuardFalsy delta
      | none => false
  | _ => false

/-- A content-bearing event in the sense of the specification's data
model: a delta with `content` present and non-null and no meaningful
(truthy) `reasoning`. -/
def contentBearing (l : String) : Bool :=
  match classify l with
  | .ev d =>
      match deltaOf d with
      | some (_, delta) =>
          !jsTruthyO (getField delta "reasoning") &&
          (match getField delta "content" with
           | some v => decide (v ≠ Json.null)
           | none => false)
      | none => false
  | _ => false

/-- Can the line fire variant B's duration-separator branch (given the
session flags allow it)? -/
def sepCandidateB (l : String) : Bool :=
  match classify l with
  | .ev d =>
      match deltaOf d with
      | some (_, delta) => !reasonGuardNull delta && contentGuardNonNull delta
      | none => false
  | _ => false

/-- Can the line fire variant C's duration-separator branch? -/
def sepCandidateC (l : String) : Bool :=
  match classify l with
  | .ev d =>
      match deltaOf d with
      | some (_, delta) => !reasonGuardFalsy delta && contentGuardDefined delta
      | none => false
  | _ => false

/-- Any `citations` field on the line's decoded event is a JSON array
(the wire schema): under this the cited transformers never throw. -/
def lineCitOk (l : String) : Bool :=
  match classify l with
  | .ev d =>
      match getField d "citations" with
      | none => true
      | some (Json.arr _) => true
      | some _ => false
  | _ => true

/-- All lines are schema-conformant in their `citations` field. -/
def citOk (ls : List String) : Bool := ls.all lineCitOk

/-- The captured citation list, if any, is a JSON array. -/
def stCitOkB (st : StB) : Bool :=
  match st.citations with
  | none => true
  | some (Json.arr _) => true
  | _ => false

theorem contentBearing_sepCandB {l : String} (h : contentBearing l = true) :
    sepCandidateB l = true ∧ isReasoningLineB l = false := by
  unfold contentBearing at h
  unfold sepCandidateB isReasoningLineB
  cases hcl : classify l with
  | raw => rw [hcl] at h; exact absurd h (by simp)
  | sentinel => rw [hcl] at h; exact absurd h (by simp)
  | bad => rw [hcl] at h; exact absurd h (by simp)
  | ev d =>
      rw [hcl] at h
      dsimp only at h ⊢
      cases hdo : deltaOf d with
      | none => rw [hdo] at h; exact absurd h (by simp)
      | some p =>
          rcases p with ⟨c0, delta⟩
          rw [hdo] at h
          dsimp only at h ⊢
          simp only [Bool.and_eq_true, Bool.not_eq_true'] at h
          obtain ⟨h1, h2⟩ := h
          have hg : reasonGuardNull delta = false := by
            simp [reasonGuardNull, h1]
          have hcg : contentGuardNonNull delta = true := by
            cases hco : getField delta "content" with
            | none => rw [hco] at h2; exact absurd h2 (by simp)
            | some v =>
                rw [hco] at h2
                simp only [decide_eq_true_eq] at h2
                simp [contentGuardNonNull, hco, h2]
          simp [hg, hcg]

theorem stepB_main (st : StB) (l : String) (hok : lineCitOk l = true)
    (hst : stCitOkB st = true) :
    (stepB st l).2.2 = false ∧
    stCitOkB (stepB st l).1 = true ∧
    (stepB st l).1.reasoningStarted = (st.reasoningStarted || isReasoningLineB l) ∧
    (stepB st l).1.reasoningEnded =
      (st.reasoningEnded || (st.reasoningStarted && !st.reasoningEnded && sepCandidateB l)) ∧
    countP Item.isHeader (stepB st l).2.1 =
      (if st.reasoningStarted = false ∧ isReasoningLineB l = true then 1 else 0) ∧
    countP Item.isSep (stepB st l).2.1 =
      (if st.reasoningStarted = true ∧ st.reasoningEnded = false ∧ sepCandidateB l = true
       then 1 else 0) := by
  unfold stepB
  cases hcl : classify l with
  | raw =>
      have hrl : isReasoningLineB l = false := by simp [isReasoningLineB, hcl]
      have hsc : sepCandidateB l = false := by simp [sepCandidateB, hcl]
      refine ⟨rfl, hst, ?_, ?_, ?_, ?_⟩ <;>
        simp [hrl, hsc, countP, Item.isHeader, Item.isSep]
  | bad =>
      have hrl : isReasoningLineB l = false := by simp [isReasoningLineB, hcl]
      have hsc : sepCandidateB l = false := by simp [sepCandidateB, hcl]
      refine ⟨rfl, hst, ?_, ?_, ?_, ?_⟩ <;>
        simp [hrl, hsc, countP, Item.isHeader, Item.isSep]
  | sentinel =>
      have hrl : isReasoningLineB l = false := by simp [isReasoningLineB, hcl]
      have hsc : sepCandidateB l = false := by simp [sepCandidateB, hcl]
      cases hcit : st.citations with
      | none =>
          dsimp only
          refine ⟨rfl, rfl, ?_, ?_, ?_, ?_⟩ <;>
            simp [hrl, hsc, countP, Item.isHeader, Item.isSep]
      | some c =>
          have hst2 := hst
          unfold stCitOkB at hst2
          rw [hcit] at hst2
          cases c with
          | arr xs =>
              dsimp only
              rw [show footAB (Json.arr xs) = some (citationsMessageAB xs) from rfl]
              dsimp only
              refine ⟨rfl, rfl, ?_, ?_, ?_, ?_⟩ <;>
                simp [hrl, hsc, countP, Item.isHeader, Item.isSep, Item.isFooter]
          | null => exact absurd hst2 (by simp)
          | bool b => exact absurd hst2 (by simp)
          | num n => exact absurd hst2 (by simp)
          | str s2 => exact absurd hst2 (by simp)
          | obj fs => exact absurd hst2 (by simp)
  | ev d =>
      have hokd : (match getField d "citations" with
          | none => true
          | some (Json.arr _) => true
          | some _ => false) = true := by
        have h2 := hok
        unfold lineCitOk at h2
        rw [hcl] at h2
        exact h2
      dsimp only
      generalize hstc : (if (jsTruthyO (getField d "citations") &&
          ({ st with tick := st.tick + 1 } : StB).citations.isNone) = true
          then { { st with tick := st.tick + 1 } with citations := getField d "citations" }
          else { st with tick := st.tick + 1 }) = stc
      have hcap : stCitOkB stc = true := by
        rw [← hstc]
        by_cases hcond : (jsTruthyO (getField d "citations") &&
            ({ st with tick := st.tick + 1 } : StB).citations.isNone) = true
        · rw [if_pos hcond]
          cases hgf : getField d "citations" with
          | none => simp [stCitOkB, hgf]
          | some c =>
              rw [hgf] at hokd
              cases c with
              | arr xs => simp [stCitOkB, hgf]
              | null => exact absurd hokd (by simp)
              | bool b => exact absurd hokd (by simp)
              | num n => exact absurd hokd (by simp)
              | str s2 => exact absurd hokd (by simp)
              | obj fs => exact absurd hokd (by simp)
        · rw [if_neg (by simpa using hcond)]
          exact hst
      have hfs : stc.reasoningStarted = st.reasoningStarted := by
        rw [← hstc]
        by_cases hcond : (jsTruthyO (getField d "citations") &&
            ({ st with tick := st.tick + 1 } : StB).citations.isNone) = true
        · rw [if_pos hcond]
        · rw [if_neg (by simpa using hcond)]
      have hfe : stc.reasoningEnded = st.reasoningEnded := by
        rw [← hstc]
        by_cases hcond : (jsTruthyO (getField d "citations") &&
            ({ st with tick := st.tick + 1 } : StB).citations.isNone) = true
        · rw [if_pos hcond]
        · rw [if_neg (by simpa using hcond)]
      unfold evStepB
      cases hdo : deltaOf d with
      | none =>
          have hrl : isReasoningLineB l = false := by simp [isReasoningLineB, hcl, hdo]
          have hsc : sepCandidateB l = false := by simp [sepCandidateB, hcl, hdo]
          dsimp only
          refine ⟨rfl, hcap, ?_, ?_, ?_, ?_⟩ <;>
            simp [hrl, hsc, hfs, hfe, countP, Item.isHeader, Item.isSep]
      | some p =>
          rcases p with ⟨c0, delta⟩
          have hrl : isReasoningLineB l = reasonGuardNull delta := by
            simp [isReasoningLineB, hcl, hdo]
          have hsc : sepCandidateB l = (!reasonGuardNull delta && contentGuardNonNull delta) := by
            simp [sepCandidateB, hcl, hdo]
          dsimp only
          by_cases hg : reasonGuardNull delta = true
          · rw [hg] at hrl
            have hscf : sepCandidateB l = false := by rw [hsc, hg]; simp
            rw [if_pos hg]
            cases hsd : st.reasoningStarted with
            | true =>
                rw [hfs, hsd]
                cases hgr : getField delta "reasoning" with
                | none =>
                    refine ⟨rfl, hcap, ?_, ?_, ?_, ?_⟩ <;>
                      simp [hrl, hscf, hfs, hfe, hsd, countP, Item.isHeader, Item.isSep]
                | some rj =>
                    cases rj <;>
                      refine ⟨rfl, hcap, ?_, ?_, ?_, ?_⟩ <;>
                        simp [hrl, hscf, hfs, hfe, hsd, countP, Item.isHeader, Item.isSep,
                          Item.isFrag]
            | false =>
                rw [hfs, hsd]
                cases hgr : getField delta "reasoning" with
                | none =>
                    refine ⟨rfl, hcap, ?_, ?_, ?_, ?_⟩ <;>
                      simp [hrl, hscf, hfs, hfe, hsd, countP, Item.isHeader, Item.isSep]
                | some rj =>
                    cases rj <;>
                      refine ⟨rfl, hcap, ?_, ?_, ?_, ?_⟩ <;>
                        simp [hrl, hscf, hfs, hfe, hsd, countP, Item.isHeader, Item.isSep,
                          Item.isFrag]
          · have hgf : reasonGuardNull delta = false := by simpa using hg
            rw [hgf] at hrl
            have hsc2 : sepCandidateB l = contentGuardNonNull delta := by
              rw [hsc, hgf]
              simp
            rw [if_neg hg]
            by_cases htr : (contentGuardNonNull delta && stc.reasoningStarted &&
                !stc.reasoningEnded) = true
            · rw [if_pos htr]
              have htr2 := htr
              simp only [Bool.and_eq_true, Bool.not_eq_true'] at htr2
              obtain ⟨⟨ht1, ht2⟩, ht3⟩ := htr2
              rw [hfs] at ht2
              rw [hfe] at ht3
              refine ⟨rfl, hcap, ?_, ?_, ?_, ?_⟩ <;>
                simp [hrl, hsc2, hfs, hfe, ht1, ht2, ht3, countP, Item.isHeader, Item.isSep]
            · rw [if_neg htr]
              have htr2 : contentGuardNonNull delta = false ∨ st.reasoningStarted = false ∨
                  st.reasoningEnded = true := by
                by_cases hc1 : contentGuardNonNull delta = true
                · by_cases hc2 : st.reasoningStarted = true
                  · right; right
                    rcases Bool.eq_false_or_eq_true st.reasoningEnded with he | he
                    · exact he
                    · exfalso
                      apply htr
                      rw [hfs, hfe]
                      simp [hc1, hc2, he]
                  · right; left; simpa using hc2
                · left; simpa using hc1
              refine ⟨rfl, hcap, ?_, ?_, ?_, ?_⟩
              · simp [hrl, hfs]
              · rcases htr2 with hx | hx | hx <;>
                  simp [hsc2, hfe, hx]
              · simp [hrl, countP, Item.isHeader]
              · rcases htr2 with hx | hx | hx <;>
                  simp [hsc2, hx, countP, Item.isSep]

theorem countP_append (p : Item → Bool) (a b : List Item) :
    countP p (a ++ b) = countP p a + countP p b := by
  simp [countP, List.filter_append]

theorem foldB_main : ∀ (ls : List String) (st : StB),
    citOk ls = true → stCitOkB st = true →
    (lineFold stepB st ls).2.2 = false ∧
    stCitOkB (lineFold stepB st ls).1 = true ∧
    (lineFold stepB st ls).1.reasoningStarted = (st.reasoningStarted || ls.any isReasoningLineB) ∧
    ((lineFold stepB st ls).1.reasoningEnded = false → st.reasoningEnded = false) ∧
    countP Item.isHeader (lineFold stepB st ls).2.1 =
      (if st.reasoningStarted = false ∧ ls.any isReasoningLineB = true then 1 else 0) ∧
    countP Item.isSep (lineFold stepB st ls).2.1 =
      (if st.reasoningEnded = true then 0
       else if (lineFold stepB st ls).1.reasoningEnded = true then 1 else 0) ∧
    ((lineFold stepB st ls).1.reasoningStarted = false →
      (lineFold stepB st ls).1.reasoningEnded = st.reasoningEnded)
  | [], st, _, hst => by
      refine ⟨rfl, hst, by simp [lineFold], by simp [lineFold], by simp [lineFold, countP], ?_,
        by simp [lineFold]⟩
      rcases Bool.eq_false_or_eq_true st.reasoningEnded with he | he <;>
        simp [lineFold, countP, he]
  | l :: ls, st, hok, hst => by
      have hok1 : lineCitOk l = true := by
        have := hok
        simp [citOk, List.all_cons] at this
        exact this.1
      have hok2 : citOk ls = true := by
        have h2 := hok
        simp [citOk, List.all_cons, List.all_eq_true] at h2 ⊢
        exact h2.2
      obtain ⟨he1, hc1, hs1, hd1, hh1, hp1⟩ := stepB_main st l hok1 hst
      rcases hsl : stepB st l with ⟨st1, out1, e1⟩
      rw [hsl] at he1 hc1 hs1 hd1 hh1 hp1
      simp only at he1 hc1 hs1 hd1 hh1 hp1
      cases e1 with
      | true => exact absurd he1 (by simp)
      | false =>
          obtain ⟨ihe, ihc, ihs, ihd, ihh, ihp, ihq⟩ := foldB_main ls st1 hok2 hc1
          rcases hfl : lineFold stepB st1 ls with ⟨st2, out2, e2⟩
          rw [hfl] at ihe ihc ihs ihd ihh ihp ihq
          simp only at ihe ihc ihs ihd ihh ihp ihq
          have hfold : lineFold stepB st (l :: ls) = (st2, out1 ++ out2, e2) := by
            simp only [lineFold, hsl, hfl]
          rw [hfold]
          simp only
          refine ⟨ihe, ihc, ?_, ?_, ?_, ?_, ?_⟩
          · rw [ihs, hs1]
            simp [List.any_cons, Bool.or_assoc]
          · intro h2
            have h3 := ihd h2
            rw [hd1] at h3
            rcases Bool.eq_false_or_eq_true st.reasoningEnded with he | he
            · rw [he] at h3
              simp at h3
            · exact he
          · rw [countP_append, hh1, ihh, hs1]
            simp only [List.any_cons]
            rcases Bool.eq_false_or_eq_true st.reasoningStarted with hrs | hrs
            · simp [hrs]
            · rcases Bool.eq_false_or_eq_true (isReasoningLineB l) with hrb | hrb <;>
                simp [hrs, hrb]
          · rw [countP_append, hp1, ihp]
            rcases Bool.eq_false_or_eq_true st.reasoningEnded with hre | hre
            · have hs1e : st1.reasoningEnded = true := by
                rw [hd1, hre]
                simp
              simp [hre, hs1e]
            · rcases Bool.eq_false_or_eq_true
                  (st.reasoningStarted && !st.reasoningEnded && sepCandidateB l) with hfired | hfired
              · have hs1e : st1.reasoningEnded = true := by
                  rw [hd1, hfired]
                  simp
                have hs2e : st2.reasoningEnded = true := by
                  rcases Bool.eq_false_or_eq_true st2.reasoningEnded with hx | hx
                  · exact hx
                  · have hxx := ihd hx
                    rw [hxx] at hs1e
                    exact absurd hs1e (by simp)
                simp only [Bool.and_eq_true, Bool.not_eq_true'] at hfired
                obtain ⟨⟨hf1, hf2⟩, hf3⟩ := hfired
                simp [hre, hs1e, hs2e, hf1, hf3]
              · have hs1e : st1.reasoningEnded = false := by
                  rw [hd1, hfired, hre]
                  simp
                have hnofire : ¬(st.reasoningStarted = true ∧ st.reasoningEnded = false ∧
                    sepCandidateB l = true) := by
                  intro hhx
                  obtain ⟨hx1, hx2, hx3⟩ := hhx
                  rw [hx1, hx2, hx3] at hfired
                  simp at hfired
                simp [hre, hs1e, if_neg hnofire]
                intro hx
                rw [hx, hre] at hfired
                simpa using hfired
          · intro hq
            have hst1s : st1.reasoningStarted = false := by
              rcases Bool.eq_false_or_eq_true st1.reasoningStarted with hx | hx
              · rw [ihs, hx] at hq
                simp at hq
              · exact hx
            have hsts : st.reasoningStarted = false := by
              rcases Bool.eq_false_or_eq_true st.reasoningStarted with hx | hx
              · rw [hs1, hx] at hst1s
                simp at hst1s
              · exact hx
            rw [ihq hq, hd1, hsts]
            simp

theorem stepB_hf (st : StB) (l : String) :
    (st.reasoningStarted = false → isReasoningLineB l = false →
      (stepB st l).2.1.filter (fun i => i.isHeader || i.isFrag) = []) ∧
    (st.reasoningStarted = false → isReasoningLineB l = true →
      ∃ hs rest, (stepB st l).2.1.filter (fun i => i.isHeader || i.isFrag) =
        Item.header hs :: rest) := by
  unfold stepB
  cases hcl : classify l with
  | raw =>
      have hrl : isReasoningLineB l = false := by simp [isReasoningLineB, hcl]
      constructor
      · intro _ _
        simp [Item.isHeader, Item.isFrag]
      · intro _ h2
        rw [hrl] at h2
        exact absurd h2 (by simp)
  | bad =>
      have hrl : isReasoningLineB l = false := by simp [isReasoningLineB, hcl]
      constructor
      · intro _ _
        simp [Item.isHeader, Item.isFrag]
      · intro _ h2
        rw [hrl] at h2
        exact absurd h2 (by simp)
  | sentinel =>
      have hrl : isReasoningLineB l = false := by simp [isReasoningLineB, hcl]
      refine ⟨fun _ _ => ?_, fun _ h2 => absurd (hrl ▸ h2) (by simp)⟩
      cases hcit : st.citations with
      | none =>
          dsimp only
          simp [Item.isHeader, Item.isFrag]
      | some c =>
          dsimp only
          cases hf : footAB c with
          | none => simp [Item.isHeader, Item.isFrag]
          | some m => simp [Item.isHeader, Item.isFrag]
  | ev d =>
      dsimp only
      generalize hstc : (if (jsTruthyO (getField d "citations") &&
          ({ st with tick := st.tick + 1 } : StB).citations.isNone) = true
          then { { st with tick := st.tick + 1 } with citations := getField d "citations" }
          else { st with tick := st.tick + 1 }) = stc
      have hfs : stc.reasoningStarted = st.reasoningStarted := by
        rw [← hstc]
        by_cases hcond : (jsTruthyO (getField d "citations") &&
            ({ st with tick := st.tick + 1 } : StB).citations.isNone) = true
        · rw [if_pos hcond]
        · rw [if_neg (by simpa using hcond)]
      unfold evStepB
      cases hdo : deltaOf d with
      | none =>
          have hrl : isReasoningLineB l = false := by simp [isReasoningLineB, hcl, hdo]
          constructor
          · intro _ _
            simp [Item.isHeader, Item.isFrag]
          · intro _ h2
            rw [hrl] at h2
            exact absurd h2 (by simp)
      | some p =>
          rcases p with ⟨c0, delta⟩
          have hrl : isReasoningLineB l = reasonGuardNull delta := by
            simp [isReasoningLineB, hcl, hdo]
          dsimp only
          by_cases hg : reasonGuardNull delta = true
          · rw [if_pos hg]
            constructor
            · intro _ h2
              rw [hrl, hg] at h2
              exact absurd h2 (by simp)
            · intro h1 _
              rw [hfs, h1]
              cases hgr : getField delta "reasoning" with
              | none =>
                  refine ⟨mkSpread d c0 thinkingText, [], ?_⟩
                  simp [Item.isHeader, Item.isFrag]
              | some rj =>
                  cases rj with
                  | str r =>
                      exact ⟨mkSpread d c0 thinkingText,
                        [Item.frag (mkSpread d c0 (quoteNl r))],
                        by simp [Item.isHeader, Item.isFrag]⟩
                  | null =>
                      exact ⟨mkSpread d c0 thinkingText, [],
                        by simp [Item.isHeader, Item.isFrag]⟩
                  | bool b =>
                      exact ⟨mkSpread d c0 thinkingText, [],
                        by simp [Item.isHeader, Item.isFrag]⟩
                  | num n =>
                      exact ⟨mkSpread d c0 thinkingText, [],
                        by simp [Item.isHeader, Item.isFrag]⟩
                  | arr xs =>
                      exact ⟨mkSpread d c0 thinkingText, [],
                        by simp [Item.isHeader, Item.isFrag]⟩
                  | obj fs =>
                      exact ⟨mkSpread d c0 thinkingText, [],
                        by simp [Item.isHeader, Item.isFrag]⟩
          · have hgf : reasonGuardNull delta = false := by simpa using hg
            rw [if_neg hg]
            constructor
            · intro _ _
              by_cases htr : (contentGuardNonNull delta && stc.reasoningStarted &&
                  !stc.reasoningEnded) = true
              · rw [if_pos htr]
                simp [Item.isHeader, Item.isFrag]
              · rw [if_neg htr]
                simp [Item.isHeader, Item.isFrag]
            · intro _ h2
              rw [hrl, hgf] at h2
              exact absurd h2 (by simp)

theorem foldB_hf : ∀ (ls : List String) (st : StB),
    st.reasoningStarted = false → citOk ls = true → stCitOkB st = true →
    (ls.any isReasoningLineB = false →
      (lineFold stepB st ls).2.1.filter (fun i => i.isHeader || i.isFrag) = []) ∧
    (ls.any isReasoningLineB = true →
      ∃ hs rest, (lineFold stepB st ls).2.1.filter (fun i => i.isHeader || i.isFrag) =
        Item.header hs :: rest)
  | [], st, _, _, _ => by
      constructor
      · intro _
        simp [lineFold]
      · intro h2
        simp at h2
  | l :: ls, st, hns, hok, hst => by
      have hok1 : lineCitOk l = true := by
        have h2 := hok
        simp [citOk, List.all_cons, List.all_eq_true] at h2
        exact h2.1
      have hok2 : citOk ls = true := by
        have h2 := hok
        simp [citOk, List.all_cons, List.all_eq_true] at h2 ⊢
        exact h2.2
      obtain ⟨he1, hc1, hs1, _, _, _⟩ := stepB_main st l hok1 hst
      obtain ⟨hhf1, hhf2⟩ := stepB_hf st l
      rcases hsl : stepB st l with ⟨st1, out1, e1⟩
      rw [hsl] at he1 hc1 hs1 hhf1 hhf2
      simp only at he1 hc1 hs1 hhf1 hhf2
      cases e1 with
      | true => exact absurd he1 (by simp)
      | false =>
          have hfold : lineFold stepB st (l :: ls) =
              ((lineFold stepB st1 ls).1, out1 ++ (lineFold stepB st1 ls).2.1,
               (lineFold stepB st1 ls).2.2) := by
            simp only [lineFold, hsl]
          rw [hfold]
          simp only [List.any_cons]
          rcases Bool.eq_false_or_eq_true (isReasoningLineB l) with hrb | hrb
          · obtain ⟨hs, rest, hshape⟩ := hhf2 hns hrb
            constructor
            · intro h2
              rw [hrb] at h2
              simp at h2
            · intro _
              refine ⟨hs, rest ++ (lineFold stepB st1 ls).2.1.filter
                (fun i => i.isHeader || i.isFrag), ?_⟩
              rw [List.filter_append, hshape]
              simp
          · have hst1 : st1.reasoningStarted = false := by
              rw [hs1, hns, hrb]
              rfl
            obtain ⟨ih1, ih2⟩ := foldB_hf ls st1 hst1 hok2 hc1
            have hout1 : out1.filter (fun i => i.isHeader || i.isFrag) = [] := hhf1 hns hrb
            constructor
            · intro h2
              rw [hrb] at h2
              simp only [Bool.false_or] at h2
              rw [List.filter_append, hout1, ih1 h2]
              rfl
            · intro h2
              rw [hrb] at h2
              simp only [Bool.false_or] at h2
              obtain ⟨hs, rest, hshape⟩ := ih2 h2
              refine ⟨hs, rest, ?_⟩
              rw [List.filter_append, hout1, hshape]
              rfl

theorem stepB_content (st : StB) (c : String) (hcb : contentBearing c = true)
    (hstart : st.reasoningStarted = true) :
    (st.reasoningEnded = true →
      (stepB st c).2.1 = [Item.fwd (c ++ "\n")] ∧ (stepB st c).1.reasoningEnded = true) ∧
    (st.reasoningEnded = false →
      ∃ s, (stepB st c).2.1 = [Item.sep s, Item.fwd (c ++ "\n")] ∧
        (stepB st c).1.reasoningEnded = true) := by
  obtain ⟨hsc, _⟩ := contentBearing_sepCandB hcb
  unfold stepB
  cases hcl : classify c with
  | raw =>
      have : sepCandidateB c = false := by simp [sepCandidateB, hcl]
      rw [this] at hsc
      exact absurd hsc (by simp)
  | sentinel =>
      have : sepCandidateB c = false := by simp [sepCandidateB, hcl]
      rw [this] at hsc
      exact absurd hsc (by simp)
  | bad =>
      have : sepCandidateB c = false := by simp [sepCandidateB, hcl]
      rw [this] at hsc
      exact absurd hsc (by simp)
  | ev d =>
      dsimp only
      generalize hstc : (if (jsTruthyO (getField d "citations") &&
          ({ st with tick := st.tick + 1 } : StB).citations.isNone) = true
          then { { st with tick := st.tick + 1 } with citations := getField d "citations" }
          else { st with tick := st.tick + 1 }) = stc
      have hfs : stc.reasoningStarted = st.reasoningStarted := by
        rw [← hstc]
        by_cases hcond : (jsTruthyO (getField d "citations") &&
            ({ st with tick := st.tick + 1 } : StB).citations.isNone) = true
        · rw [if_pos hcond]
        · rw [if_neg (by simpa using hcond)]
      have hfe : stc.reasoningEnded = st.reasoningEnded := by
        rw [← hstc]
        by_cases hcond : (jsTruthyO (getField d "citations") &&
            ({ st with tick := st.tick + 1 } : StB).citations.isNone) = true
        · rw [if_pos hcond]
        · rw [if_neg (by simpa using hcond)]
      unfold evStepB
      cases hdo : deltaOf d with
      | none =>
          have : sepCandidateB c = false := by simp [sepCandidateB, hcl, hdo]
          rw [this] at hsc
          exact absurd hsc (by simp)
      | some p =>
          rcases p with ⟨c0, delta⟩
          have hsc2 : sepCandidateB c = (!reasonGuardNull delta && contentGuardNonNull delta) := by
            simp [sepCandidateB, hcl, hdo]
          rw [hsc2] at hsc
          simp only [Bool.and_eq_true, Bool.not_eq_true'] at hsc
          obtain ⟨hg, hcg⟩ := hsc
          dsimp only
          rw [if_neg (by simp [hg])]
          constructor
          · intro hend
            rw [if_neg (by rw [hcg, hfs, hfe, hstart, hend]; simp)]
            exact ⟨rfl, by rw [hfe]; exact hend⟩
          · intro hend
            rw [if_pos (by rw [hcg, hfs, hfe, hstart, hend]; rfl)]
            exact ⟨_, rfl, rfl⟩

theorem doneB_main (st : StB) (hst : stCitOkB st = true) :
    (doneB st).2 = false ∧
    countP Item.isHeader (doneB st).1 = 0 ∧
    countP Item.isSep (doneB st).1 = 0 ∧
    (doneB st).1.filter (fun i => i.isHeader || i.isFrag) = [] := by
  unfold doneB
  cases hcit : st.citations with
  | none => exact ⟨rfl, rfl, rfl, rfl⟩
  | some cj =>
      have hst2 := hst
      unfold stCitOkB at hst2
      rw [hcit] at hst2
      cases cj with
      | arr xs =>
          dsimp only
          rw [show footAB (Json.arr xs) = some (citationsMessageAB xs) from rfl]
          dsimp only
          refine ⟨rfl, ?_, ?_, ?_⟩ <;>
            simp [countP, Item.isHeader, Item.isSep, Item.isFrag, Item.isFooter]
      | null => exact absurd hst2 (by simp)
      | bool b => exact absurd hst2 (by simp)
      | num n => exact absurd hst2 (by simp)
      | str s2 => exact absurd hst2 (by simp)
      | obj fs => exact absurd hst2 (by simp)

theorem citOk_decomp (xs : List String) (c : String) (ys : List String)
    (h : citOk (xs ++ c :: ys) = true) :
    citOk xs = true ∧ lineCitOk c = true ∧ citOk ys = true := by
  simp only [citOk, List.all_append, List.all_cons, Bool.and_eq_true] at h ⊢
  exact ⟨h.1, h.2.1, h.2.2⟩

theorem partsC1_B (ls : List String) (hok : citOk ls = true) :
    countP Item.isHeader (runLinesB ls).1 =
      (if ls.any isReasoningLineB = true then 1 else 0) ∧
    (ls.any isReasoningLineB = true →
      ∃ hs rest, (runLinesB ls).1.filter (fun i => i.isHeader || i.isFrag) =
        Item.header hs :: rest) ∧
    (ls.any isReasoningLineB = false →
      countP Item.isSep (runLinesB ls).1 = 0) ∧
    (∀ xs c ys, ls = xs ++ c :: ys → xs.any isReasoningLineB = true →
      contentBearing c = true →
      ∃ u v, (runLinesB ls).1 = u ++ v ∧ countP Item.isSep u = 1 ∧
        countP Item.isSep v = 0 ∧ Item.fwd (c ++ "\n") ∈ v) := by
  unfold runLinesB runLines
  obtain ⟨he, hc, hs, hd, hh, hp, hq⟩ := foldB_main ls initStB hok rfl
  obtain ⟨hf1, hf2⟩ := foldB_hf ls initStB rfl hok rfl
  rcases hfl : lineFold stepB initStB ls with ⟨st1, out1, e1⟩
  rw [hfl] at he hc hs hd hh hp hq hf1 hf2
  simp only at he hc hs hd hh hp hq hf1 hf2
  cases e1 with
  | true => exact absurd he (by simp)
  | false =>
      obtain ⟨hde, hdh, hds, hdhf⟩ := doneB_main st1 hc
      rcases hdn : doneB st1 with ⟨out2, e2⟩
      rw [hdn] at hde hdh hds hdhf
      simp only at hde hdh hds hdhf
      dsimp only
      rw [hdn]
      dsimp only
      refine ⟨?_, ?_, ?_, ?_⟩
      · rw [countP_append, hh, hdh]
        rcases Bool.eq_false_or_eq_true (ls.any isReasoningLineB) with ha | ha <;>
          simp [ha, initStB]
      · intro ha
        obtain ⟨hs0, rest, hshape⟩ := hf2 ha
        refine ⟨hs0, rest ++ out2.filter (fun i => i.isHeader || i.isFrag), ?_⟩
        rw [List.filter_append, hshape]
        simp
      · intro ha
        have hss : st1.reasoningStarted = false := by
          rw [hs, ha]
          rfl
        have hse : st1.reasoningEnded = false := (hq hss).trans rfl
        rw [countP_append, hp, hds]
        simp [hse, initStB]
      · intro xs c ys hls hxs hcb
        subst hls
        obtain ⟨hokx, hokc, hoky⟩ := citOk_decomp xs c ys hok
        obtain ⟨hex, hcx, hsx, _, _, hpx, hqx⟩ := foldB_main xs initStB hokx rfl
        rcases hflx : lineFold stepB initStB xs with ⟨stx, outx, ex⟩
        rw [hflx] at hex hcx hsx hpx hqx
        simp only at hex hcx hsx hpx hqx
        cases ex with
        | true => exact absurd hex (by simp)
        | false =>
            have hsxs : stx.reasoningStarted = true := by
              rw [hsx, hxs]
              simp
            obtain ⟨hcend, hcelse⟩ := stepB_content stx c hcb hsxs
            obtain ⟨hce, hcc, _, _, _, _⟩ := stepB_main stx c hokc hcx
            rcases hsc2 : stepB stx c with ⟨stc2, outc, ec⟩
            rw [hsc2] at hcend hcelse hce hcc
            simp only at hcend hcelse hce hcc
            cases ec with
            | true => exact absurd hce (by simp)
            | false =>
                obtain ⟨hey, hcy, _, _, _, hpy, _⟩ := foldB_main ys stc2 hoky hcc
                rcases hfly : lineFold stepB stc2 ys with ⟨sty, outy, ey⟩
                rw [hfly] at hey hcy hpy
                simp only at hey hcy hpy
                cases ey with
                | true => exact absurd hey (by simp)
                | false =>
                    have hcomp : lineFold stepB initStB (xs ++ c :: ys) =
                        (sty, outx ++ (outc ++ outy), false) := by
                      rw [lineFold_append stepB xs (c :: ys) initStB, hflx]
                      dsimp only
                      have hfc : lineFold stepB stx (c :: ys) = (sty, outc ++ outy, false) := by
                        simp only [lineFold, hsc2, hfly]
                      rw [hfc]
                    have hout1 : outx ++ (outc ++ outy) = out1 :=
                      congrArg (fun p => p.2.1) (hcomp.symm.trans hfl)
                    rcases Bool.eq_false_or_eq_true stx.reasoningEnded with hre | hre
                    · obtain ⟨houtc, hc2e⟩ := hcend hre
                      have hpx1 : countP Item.isSep outx = 1 := by
                        rw [hpx]
                        simp [hre, initStB]
                      refine ⟨outx, outc ++ outy ++ out2, ?_, hpx1, ?_, ?_⟩
                      · rw [← hout1]
                        simp
                      · have hpy0 : countP Item.isSep outy = 0 := by
                          rw [hpy]
                          simp [hc2e]
                        rw [countP_append, countP_append, hpy0, hds, houtc]
                        rfl
                      · rw [houtc]
                        simp
                    · obtain ⟨s0, houtc, hc2e⟩ := hcelse hre
                      have hpx1 : countP Item.isSep outx = 0 := by
                        rw [hpx]
                        simp [hre, initStB]
                      refine ⟨outx ++ [Item.sep s0],
                        Item.fwd (c ++ "\n") :: (outy ++ out2), ?_, ?_, ?_, ?_⟩
                      · rw [← hout1, houtc]
                        simp
                      · rw [countP_append, hpx1]
                        rfl
                      · have hpy0 : countP Item.isSep outy = 0 := by
                          rw [hpy]
                          simp [hc2e]
                        rw [show countP Item.isSep (Item.fwd (c ++ "\n") :: (outy ++ out2)) =
                          countP Item.isSep (outy ++ out2) from rfl, countP_append, hpy0, hds]
                      · simp


/-- The captured citation list of variant C, if any, is a JSON array. -/
def stCitOkC (st : StC) : Bool :=
  match st.citations with
  | none => true
  | some (Json.arr _) => true
  | _ => false

theorem contentBearing_sepCandC {l : String} (h : contentBearing l = true) :
    sepCandidateC l = true ∧ isReasoningLineC l = false := by
  unfold contentBearing at h
  unfold sepCandidateC isReasoningLineC
  cases hcl : classify l with
  | raw => rw [hcl] at h; exact absurd h (by simp)
  | sentinel => rw [hcl] at h; exact absurd h (by simp)
  | bad => rw [hcl] at h; exact absurd h (by simp)
  | ev d =>
      rw [hcl] at h
      dsimp only at h ⊢
      cases hdo : deltaOf d with
      | none => rw [hdo] at h; exact absurd h (by simp)
      | some p =>
          rcases p with ⟨c0, delta⟩
          rw [hdo] at h
          dsimp only at h ⊢
          simp only [Bool.and_eq_true, Bool.not_eq_true'] at h
          obtain ⟨h1, h2⟩ := h
          have hg : reasonGuardFalsy delta = false := by
            simp [reasonGuardFalsy, h1]
          have hcg : contentGuardDefined delta = true := by
            cases hco : getField delta "content" with
            | none => rw [hco] at h2; exact absurd h2 (by simp)
            | some v =>
                rw [hco] at h2
                simp only [decide_eq_true_eq] at h2
                simp [contentGuardDefined, hco, h2]
          simp [hg, hcg]

theorem stepC_main (st : StC) (l : String) (hok : lineCitOk l = true)
    (hst : stCitOkC st = true) :
    (stepC st l).2.2 = false ∧
    stCitOkC (stepC st l).1 = true ∧
    (stepC st l).1.reasoningStarted = (st.reasoningStarted || isReasoningLineC l) ∧
    (stepC st l).1.reasoningEnded =
      (st.reasoningEnded || (st.reasoningStarted && !st.reasoningEnded && sepCandidateC l)) ∧
    countP Item.isHeader (stepC st l).2.1 =
      (if st.reasoningStarted = false ∧ isReasoningLineC l = true then 1 else 0) ∧
    countP Item.isSep (stepC st l).2.1 =
      (if st.reasoningStarted = true ∧ st.reasoningEnded = false ∧ sepCandidateC l = true
       then 1 else 0) := by
  unfold stepC
  cases hcl : classify l with
  | raw =>
      have hrl : isReasoningLineC l = false := by simp [isReasoningLineC, hcl]
      have hsc : sepCandidateC l = false := by simp [sepCandidateC, hcl]
      refine ⟨rfl, hst, ?_, ?_, ?_, ?_⟩ <;>
        simp [hrl, hsc, countP, Item.isHeader, Item.isSep]
  | bad =>
      have hrl : isReasoningLineC l = false := by simp [isReasoningLineC, hcl]
      have hsc : sepCandidateC l = false := by simp [sepCandidateC, hcl]
      refine ⟨rfl, hst, ?_, ?_, ?_, ?_⟩ <;>
        simp [hrl, hsc, countP, Item.isHeader, Item.isSep]
  | sentinel =>
      have hrl : isReasoningLineC l = false := by simp [isReasoningLineC, hcl]
      have hsc : sepCandidateC l = false := by simp [sepCandidateC, hcl]
      refine ⟨rfl, hst, ?_, ?_, ?_, ?_⟩ <;>
        simp [hrl, hsc, countP, Item.isHeader, Item.isSep]
  | ev d =>
      have hokd : (match getField d "citations" with
          | none => true
          | some (Json.arr _) => true
          | some _ => false) = true := by
        have h2 := hok
        unfold lineCitOk at h2
        rw [hcl] at h2
        exact h2
      dsimp only
      generalize hstc : (if (jsTruthyO (getField d "citations") &&
          ({ st with tick := st.tick + 1 } : StC).citations.isNone) = true
          then { { st with tick := st.tick + 1 } with citations := getField d "citations" }
          else { st with tick := st.tick + 1 }) = stc
      have hcap : stCitOkC stc = true := by
        rw [← hstc]
        by_cases hcond : (jsTruthyO (getField d "citations") &&
            ({ st with tick := st.tick + 1 } : StC).citations.isNone) = true
        · rw [if_pos hcond]
          cases hgf : getField d "citations" with
          | none => simp [stCitOkC, hgf]
          | some c =>
              rw [hgf] at hokd
              cases c with
              | arr xs => simp [stCitOkC, hgf]
              | null => exact absurd hokd (by simp)
              | bool b => exact absurd hokd (by simp)
              | num n => exact absurd hokd (by simp)
              | str s2 => exact absurd hokd (by simp)
              | obj fs => exact absurd hokd (by simp)
        · rw [if_neg (by simpa using hcond)]
          exact hst
      have hfs : stc.reasoningStarted = st.reasoningStarted := by
        rw [← hstc]
        by_cases hcond : (jsTruthyO (getField d "citations") &&
            ({ st with tick := st.tick + 1 } : StC).citations.isNone) = true
        · rw [if_pos hcond]
        · rw [if_neg (by simpa using hcond)]
      have hfe : stc.reasoningEnded = st.reasoningEnded := by
        rw [← hstc]
        by_cases hcond : (jsTruthyO (getField d "citations") &&
            ({ st with tick := st.tick + 1 } : StC).citations.isNone) = true
        · rw [if_pos hcond]
        · rw [if_neg (by simpa using hcond)]
      unfold evStepC
      cases hdo : deltaOf d with
      | none =>
          have hrl : isReasoningLineC l = false := by simp [isReasoningLineC, hcl, hdo]
          have hsc : sepCandidateC l = false := by simp [sepCandidateC, hcl, hdo]
          dsimp only
          refine ⟨rfl, hcap, ?_, ?_, ?_, ?_⟩ <;>
            simp [hrl, hsc, hfs, hfe, countP, Item.isHeader, Item.isSep]
      | some p =>
          rcases p with ⟨c0, delta⟩
          have hrl : isReasoningLineC l = reasonGuardFalsy delta := by
            simp [isReasoningLineC, hcl, hdo]
          have hsc : sepCandidateC l = (!reasonGuardFalsy delta && contentGuardDefined delta) := by
            simp [sepCandidateC, hcl, hdo]
          dsimp only
          by_cases hg : reasonGuardFalsy delta = true
          · rw [hg] at hrl
            have hscf : sepCandidateC l = false := by rw [hsc, hg]; simp
            rw [if_pos hg]
            cases hsd : st.reasoningStarted with
            | true =>
                rw [hfs, hsd]
                cases hgr : getField delta "reasoning" with
                | none =>
                    refine ⟨rfl, hcap, ?_, ?_, ?_, ?_⟩ <;>
                      simp [hrl, hscf, hfs, hfe, hsd, countP, Item.isHeader, Item.isSep]
                | some rj =>
                    cases rj <;>
                      refine ⟨rfl, hcap, ?_, ?_, ?_, ?_⟩ <;>
                        simp [hrl, hscf, hfs, hfe, hsd, countP, Item.isHeader, Item.isSep,
                          Item.isFrag]
            | false =>
                rw [hfs, hsd]
                cases hgr : getField delta "reasoning" with
                | none =>
                    refine ⟨rfl, hcap, ?_, ?_, ?_, ?_⟩ <;>
                      simp [hrl, hscf, hfs, hfe, hsd, countP, Item.isHeader, Item.isSep]
                | some rj =>
                    cases rj <;>
                      refine ⟨rfl, hcap, ?_, ?_, ?_, ?_⟩ <;>
                        simp [hrl, hscf, hfs, hfe, hsd, countP, Item.isHeader, Item.isSep,
                          Item.isFrag]
          · have hgf : reasonGuardFalsy delta = false := by simpa using hg
            rw [hgf] at hrl
            have hsc2 : sepCandidateC l = contentGuardDefined delta := by
              rw [hsc, hgf]
              simp
            rw [if_neg hg]
            by_cases htr : (contentGuardDefined delta && stc.reasoningStarted &&
                !stc.reasoningEnded) = true
            · rw [if_pos htr]
              have htr2 := htr
              simp only [Bool.and_eq_true, Bool.not_eq_true'] at htr2
              obtain ⟨⟨ht1, ht2⟩, ht3⟩ := htr2
              rw [hfs] at ht2
              rw [hfe] at ht3
              refine ⟨rfl, hcap, ?_, ?_, ?_, ?_⟩ <;>
                simp [hrl, hsc2, hfs, hfe, ht1, ht2, ht3, countP, Item.isHeader, Item.isSep]
            · rw [if_neg htr]
              have htr2 : contentGuardDefined delta = false ∨ st.reasoningStarted = false ∨
                  st.reasoningEnded = true := by
                by_cases hc1 : contentGuardDefined delta = true
                · by_cases hc2 : st.reasoningStarted = true
                  · right; right
                    rcases Bool.eq_false_or_eq_true st.reasoningEnded with he | he
                    · exact he
                    · exfalso
                      apply htr
                      rw [hfs, hfe]
                      simp [hc1, hc2, he]
                  · right; left; simpa using hc2
                · left; simpa using hc1
              refine ⟨rfl, hcap, ?_, ?_, ?_, ?_⟩
              · simp [hrl, hfs]
              · rcases htr2 with hx | hx | hx <;>
                  simp [hsc2, hfe, hx]
              · simp [hrl, countP, Item.isHeader]
              · rcases htr2 with hx | hx | hx <;>
                  simp [hsc2, hx, countP, Item.isSep]

theorem foldC_main : ∀ (ls : List String) (st : StC),
    citOk ls = true → stCitOkC st = true →
    (lineFold stepC st ls).2.2 = false ∧
    stCitOkC (lineFold stepC st ls).1 = true ∧
    (lineFold stepC st ls).1.reasoningStarted = (st.reasoningStarted || ls.any isReasoningLineC) ∧
    ((lineFold stepC st ls).1.reasoningEnded = false → st.reasoningEnded = false) ∧
    countP Item.isHeader (lineFold stepC st ls).2.1 =
      (if st.reasoningStarted = false ∧ ls.any isReasoningLineC = true then 1 else 0) ∧
    countP Item.isSep (lineFold stepC st ls).2.1 =
      (if st.reasoningEnded = true then 0
       else if (lineFold stepC st ls).1.reasoningEnded = true then 1 else 0) ∧
    ((lineFold stepC st ls).1.reasoningStarted = false →
      (lineFold stepC st ls).1.reasoningEnded = st.reasoningEnded)
  | [], st, _, hst => by
      refine ⟨rfl, hst, by simp [lineFold], by simp [lineFold], by simp [lineFold, countP], ?_,
        by simp [lineFold]⟩
      rcases Bool.eq_false_or_eq_true st.reasoningEnded with he | he <;>
        simp [lineFold, countP, he]
  | l :: ls, st, hok, hst => by
      have hok1 : lineCitOk l = true := by
        have := hok
        simp [citOk, List.all_cons] at this
        exact this.1
      have hok2 : citOk ls = true := by
        have h2 := hok
        simp [citOk, List.all_cons, List.all_eq_true] at h2 ⊢
        exact h2.2
      obtain ⟨he1, hc1, hs1, hd1, hh1, hp1⟩ := stepC_main st l hok1 hst
      rcases hsl : stepC st l with ⟨st1, out1, e1⟩
      rw [hsl] at he1 hc1 hs1 hd1 hh1 hp1
      simp only at he1 hc1 hs1 hd1 hh1 hp1
      cases e1 with
      | true => exact absurd he1 (by simp)
      | false =>
          obtain ⟨ihe, ihc, ihs, ihd, ihh, ihp, ihq⟩ := foldC_main ls st1 hok2 hc1
          rcases hfl : lineFold stepC st1 ls with ⟨st2, out2, e2⟩
          rw [hfl] at ihe ihc ihs ihd ihh ihp ihq
          simp only at ihe ihc ihs ihd ihh ihp ihq
          have hfold : lineFold stepC st (l :: ls) = (st2, out1 ++ out2, e2) := by
            simp only [lineFold, hsl, hfl]
          rw [hfold]
          simp only
          refine ⟨ihe, ihc, ?_, ?_, ?_, ?_, ?_⟩
          · rw [ihs, hs1]
            simp [List.any_cons, Bool.or_assoc]
          · intro h2
            have h3 := ihd h2
            rw [hd1] at h3
            rcases Bool.eq_false_or_eq_true st.reasoningEnded with he | he
            · rw [he] at h3
              simp at h3
            · exact he
          · rw [countP_append, hh1, ihh, hs1]
            simp only [List.any_cons]
            rcases Bool.eq_false_or_eq_true st.reasoningStarted with hrs | hrs
            · simp [hrs]
            · rcases Bool.eq_false_or_eq_true (isReasoningLineC l) with hrb | hrb <;>
                simp [hrs, hrb]
          · rw [countP_append, hp1, ihp]
            rcases Bool.eq_false_or_eq_true st.reasoningEnded with hre | hre
            · have hs1e : st1.reasoningEnded = true := by
                rw [hd1, hre]
                simp
              simp [hre, hs1e]
            · rcases Bool.eq_false_or_eq_true
                  (st.reasoningStarted && !st.reasoningEnded && sepCandidateC l) with hfired | hfired
              · have hs1e : st1.reasoningEnded = true := by
                  rw [hd1, hfired]
                  simp
                have hs2e : st2.reasoningEnded = true := by
                  rcases Bool.eq_false_or_eq_true st2.reasoningEnded with hx | hx
                  · exact hx
                  · have hxx := ihd hx
                    rw [hxx] at hs1e
                    exact absurd hs1e (by simp)
                simp only [Bool.and_eq_true, Bool.not_eq_true'] at hfired
                obtain ⟨⟨hf1, hf2⟩, hf3⟩ := hfired
                simp [hre, hs1e, hs2e, hf1, hf3]
              · have hs1e : st1.reasoningEnded = false := by
                  rw [hd1, hfired, hre]
                  simp
                have hnofire : ¬(st.reasoningStarted = true ∧ st.reasoningEnded = false ∧
                    sepCandidateC l = true) := by
                  intro hhx
                  obtain ⟨hx1, hx2, hx3⟩ := hhx
                  rw [hx1, hx2, hx3] at hfired
                  simp at hfired
                simp [hre, hs1e, if_neg hnofire]
                intro hx
                rw [hx, hre] at hfired
                simpa using hfired
          · intro hq
            have hst1s : st1.reasoningStarted = false := by
              rcases Bool.eq_false_or_eq_true st1.reasoningStarted with hx | hx
              · rw [ihs, hx] at hq
                simp at hq
              · exact hx
            have hsts : st.reasoningStarted = false := by
              rcases Bool.eq_false_or_eq_true st.reasoningStarted with hx | hx
              · rw [hs1, hx] at hst1s
                simp at hst1s
              · exact hx
            rw [ihq hq, hd1, hsts]
            simp

theorem stepC_hf (st : StC) (l : String) :
    (st.reasoningStarted = false → isReasoningLineC l = false →
      (stepC st l).2.1.filter (fun i => i.isHeader || i.isFrag) = []) ∧
    (st.reasoningStarted = false → isReasoningLineC l = true →
      ∃ hs rest, (stepC st l).2.1.filter (fun i => i.isHeader || i.isFrag) =
        Item.header hs :: rest) := by
  unfold stepC
  cases hcl : classify l with
  | raw =>
      have hrl : isReasoningLineC l = false := by simp [isReasoningLineC, hcl]
      constructor
      · intro _ _
        simp [Item.isHeader, Item.isFrag]
      · intro _ h2
        rw [hrl] at h2
        exact absurd h2 (by simp)
  | bad =>
      have hrl : isReasoningLineC l = false := by simp [isReasoningLineC, hcl]
      constructor
      · intro _ _
        simp [Item.isHeader, Item.isFrag]
      · intro _ h2
        rw [hrl] at h2
        exact absurd h2 (by simp)
  | sentinel =>
      have hrl : isReasoningLineC l = false := by simp [isReasoningLineC, hcl]
      refine ⟨fun _ _ => ?_, fun _ h2 => absurd (hrl ▸ h2) (by simp)⟩
      simp [Item.isHeader, Item.isFrag]
  | ev d =>
      dsimp only
      generalize hstc : (if (jsTruthyO (getField d "citations") &&
          ({ st with tick := st.tick + 1 } : StC).citations.isNone) = true
          then { { st with tick := st.tick + 1 } with citations := getField d "citations" }
          else { st with tick := st.tick + 1 }) = stc
      have hfs : stc.reasoningStarted = st.reasoningStarted := by
        rw [← hstc]
        by_cases hcond : (jsTruthyO (getField d "citations") &&
            ({ st with tick := st.tick + 1 } : StC).citations.isNone) = true
        · rw [if_pos hcond]
        · rw [if_neg (by simpa using hcond)]
      unfold evStepC
      cases hdo : deltaOf d with
      | none =>
          have hrl : isReasoningLineC l = false := by simp [isReasoningLineC, hcl, hdo]
          constructor
          · intro _ _
            simp [Item.isHeader, Item.isFrag]
          · intro _ h2
            rw [hrl] at h2
            exact absurd h2 (by simp)
      | some p =>
          rcases p with ⟨c0, delta⟩
          have hrl : isReasoningLineC l = reasonGuardFalsy delta := by
            simp [isReasoningLineC, hcl, hdo]
          dsimp only
          by_cases hg : reasonGuardFalsy delta = true
          · rw [if_pos hg]
            constructor
            · intro _ h2
              rw [hrl, hg] at h2
              exact absurd h2 (by simp)
            · intro h1 _
              rw [hfs, h1]
              cases hgr : getField delta "reasoning" with
              | none =>
                  refine ⟨mkFresh thinkingText, [], ?_⟩
                  simp [Item.isHeader, Item.isFrag]
              | some rj =>
                  cases rj with
                  | str r =>
                      exact ⟨mkFresh thinkingText,
                        [Item.frag (mkFresh (quoteNl r))],
                        by simp [Item.isHeader, Item.isFrag]⟩
                  | null =>
                      exact ⟨mkFresh thinkingText, [],
                        by simp [Item.isHeader, Item.isFrag]⟩
                  | bool b =>
                      exact ⟨mkFresh thinkingText, [],
                        by simp [Item.isHeader, Item.isFrag]⟩
                  | num n =>
                      exact ⟨mkFresh thinkingText, [],
                        by simp [Item.isHeader, Item.isFrag]⟩
                  | arr xs =>
                      exact ⟨mkFresh thinkingText, [],
                        by simp [Item.isHeader, Item.isFrag]⟩
                  | obj fs =>
                      exact ⟨mkFresh thinkingText, [],
                        by simp [Item.isHeader, Item.isFrag]⟩
          · have hgf : reasonGuardFalsy delta = false := by simpa using hg
            rw [if_neg hg]
            constructor
            · intro _ _
              by_cases htr : (contentGuardDefined delta && stc.reasoningStarted &&
                  !stc.reasoningEnded) = true
              · rw [if_pos htr]
                simp [Item.isHeader, Item.isFrag]
              · rw [if_neg htr]
                simp [Item.isHeader, Item.isFrag]
            · intro _ h2
              rw [hrl, hgf] at h2
              exact absurd h2 (by simp)

theorem foldC_hf : ∀ (ls : List String) (st : StC),
    st.reasoningStarted = false → citOk ls = true → stCitOkC st = true →
    (ls.any isReasoningLineC = false →
      (lineFold stepC st ls).2.1.filter (fun i => i.isHeader || i.isFrag) = []) ∧
    (ls.any isReasoningLineC = true →
      ∃ hs rest, (lineFold stepC st ls).2.1.filter (fun i => i.isHeader || i.isFrag) =
        Item.header hs :: rest)
  | [], st, _, _, _ => by
      constructor
      · intro _
        simp [lineFold]
      · intro h2
        simp at h2
  | l :: ls, st, hns, hok, hst => by
      have hok1 : lineCitOk l = true := by
        have h2 := hok
        simp [citOk, List.all_cons, List.all_eq_true] at h2
        exact h2.1
      have hok2 : citOk ls = true := by
        have h2 := hok
        simp [citOk, List.all_cons, List.all_eq_true] at h2 ⊢
        exact h2.2
      obtain ⟨he1, hc1, hs1, _, _, _⟩ := stepC_main st l hok1 hst
      obtain ⟨hhf1, hhf2⟩ := stepC_hf st l
      rcases hsl : stepC st l with ⟨st1, out1, e1⟩
      rw [hsl] at he1 hc1 hs1 hhf1 hhf2
      simp only at he1 hc1 hs1 hhf1 hhf2
      cases e1 with
      | true => exact absurd he1 (by simp)
      | false =>
          have hfold : lineFold stepC st (l :: ls) =
              ((lineFold stepC st1 ls).1, out1 ++ (lineFold stepC st1 ls).2.1,
               (lineFold stepC st1 ls).2.2) := by
            simp only [lineFold, hsl]
          rw [hfold]
          simp only [List.any_cons]
          rcases Bool.eq_false_or_eq_true (isReasoningLineC l) with hrb | hrb
          · obtain ⟨hs, rest, hshape⟩ := hhf2 hns hrb
            constructor
            · intro h2
              rw [hrb] at h2
              simp at h2
            · intro _
              refine ⟨hs, rest ++ (lineFold stepC st1 ls).2.1.filter
                (fun i => i.isHeader || i.isFrag), ?_⟩
              rw [List.filter_append, hshape]
              simp
          · have hst1 : st1.reasoningStarted = false := by
              rw [hs1, hns, hrb]
              rfl
            obtain ⟨ih1, ih2⟩ := foldC_hf ls st1 hst1 hok2 hc1
            have hout1 : out1.filter (fun i => i.isHeader || i.isFrag) = [] := hhf1 hns hrb
            constructor
            · intro h2
              rw [hrb] at h2
              simp only [Bool.false_or] at h2
              rw [List.filter_append, hout1, ih1 h2]
              rfl
            · intro h2
              rw [hrb] at h2
              simp only [Bool.false_or] at h2
              obtain ⟨hs, rest, hshape⟩ := ih2 h2
              refine ⟨hs, rest, ?_⟩
              rw [List.filter_append, hout1, hshape]
              rfl

theorem stepC_content (st : StC) (c : String) (hcb : contentBearing c = true)
    (hstart : st.reasoningStarted = true) :
    (st.reasoningEnded = true →
      (stepC st c).2.1 = [Item.fwd (c ++ "\n")] ∧ (stepC st c).1.reasoningEnded = true) ∧
    (st.reasoningEnded = false →
      ∃ s, (stepC st c).2.1 = [Item.sep s, Item.fwd (c ++ "\n")] ∧
        (stepC st c).1.reasoningEnded = true) := by
  obtain ⟨hsc, _⟩ := contentBearing_sepCandC hcb
  unfold stepC
  cases hcl : classify c with
  | raw =>
      have : sepCandidateC c = false := by simp [sepCandidateC, hcl]
      rw [this] at hsc
      exact absurd hsc (by simp)
  | sentinel =>
      have : sepCandidateC c = false := by simp [sepCandidateC, hcl]
      rw [this] at hsc
      exact absurd hsc (by simp)
  | bad =>
      have : sepCandidateC c = false := by simp [sepCandidateC, hcl]
      rw [this] at hsc
      exact absurd hsc (by simp)
  | ev d =>
      dsimp only
      generalize hstc : (if (jsTruthyO (getField d "citations") &&
          ({ st with tick := st.tick + 1 } : StC).citations.isNone) = true
          then { { st with tick := st.tick + 1 } with citations := getField d "citations" }
          else { st with tick := st.tick + 1 }) = stc
      have hfs : stc.reasoningStarted = st.reasoningStarted := by
        rw [← hstc]
        by_cases hcond : (jsTruthyO (getField d "citations") &&
            ({ st with tick := st.tick + 1 } : StC).citations.isNone) = true
        · rw [if_pos hcond]
        · rw [if_neg (by simpa using hcond)]
      have hfe : stc.reasoningEnded = st.reasoningEnded := by
        rw [← hstc]
        by_cases hcond : (jsTruthyO (getField d "citations") &&
            ({ st with tick := st.tick + 1 } : StC).citations.isNone) = true
        · rw [if_pos hcond]
        · rw [if_neg (by simpa using hcond)]
      unfold evStepC
      cases hdo : deltaOf d with
      | none =>
          have : sepCandidateC c = false := by simp [sepCandidateC, hcl, hdo]
          rw [this] at hsc
          exact absurd hsc (by simp)
      | some p =>
          rcases p with ⟨c0, delta⟩
          have hsc2 : sepCandidateC c = (!reasonGuardFalsy delta && contentGuardDefined delta) := by
            simp [sepCandidateC, hcl, hdo]
          rw [hsc2] at hsc
          simp only [Bool.and_eq_true, Bool.not_eq_true'] at hsc
          obtain ⟨hg, hcg⟩ := hsc
          dsimp only
          rw [if_neg (by simp [hg])]
          constructor
          · intro hend
            rw [if_neg (by rw [hcg, hfs, hfe, hstart, hend]; simp)]
            exact ⟨rfl, by rw [hfe]; exact hend⟩
          · intro hend
            rw [if_pos (by rw [hcg, hfs, hfe, hstart, hend]; rfl)]
            exact ⟨_, rfl, rfl⟩

theorem doneC_main (st : StC) (hst : stCitOkC st = true) :
    (doneC st).2 = false ∧
    countP Item.isHeader (doneC st).1 = 0 ∧
    countP Item.isSep (doneC st).1 = 0 ∧
    (doneC st).1.filter (fun i => i.isHeader || i.isFrag) = [] := by
  unfold doneC
  cases hcit : st.citations with
  | none => exact ⟨rfl, rfl, rfl, rfl⟩
  | some cj =>
      have hst2 := hst
      unfold stCitOkC at hst2
      rw [hcit] at hst2
      cases cj with
      | arr xs =>
          cases xs with
          | nil => exact ⟨rfl, rfl, rfl, rfl⟩
          | cons x t =>
              dsimp only
              refine ⟨rfl, ?_, ?_, ?_⟩ <;>
                simp [countP, Item.isHeader, Item.isSep, Item.isFrag, Item.isFooter]
      | null => exact absurd hst2 (by simp)
      | bool b => exact absurd hst2 (by simp)
      | num n => exact absurd hst2 (by simp)
      | str s2 => exact absurd hst2 (by simp)
      | obj fs => exact absurd hst2 (by simp)

theorem partsC1_C (ls : List String) (hok : citOk ls = true) :
    countP Item.isHeader (runLinesC ls).1 =
      (if ls.any isReasoningLineC = true then 1 else 0) ∧
    (ls.any isReasoningLineC = true →
      ∃ hs rest, (runLinesC ls).1.filter (fun i => i.isHeader || i.isFrag) =
        Item.header hs :: rest) ∧
    (ls.any isReasoningLineC = false →
      countP Item.isSep (runLinesC ls).1 = 0) ∧
    (∀ xs c ys, ls = xs ++ c :: ys → xs.any isReasoningLineC = true →
      contentBearing c = true →
      ∃ u v, (runLinesC ls).1 = u ++ v ∧ countP Item.isSep u = 1 ∧
        countP Item.isSep v = 0 ∧ Item.fwd (c ++ "\n") ∈ v) := by
  unfold runLinesC runLines
  obtain ⟨he, hc, hs, hd, hh, hp, hq⟩ := foldC_main ls initStC hok rfl
  obtain ⟨hf1, hf2⟩ := foldC_hf ls initStC rfl hok rfl
  rcases hfl : lineFold stepC initStC ls with ⟨st1, out1, e1⟩
  rw [hfl] at he hc hs hd hh hp hq hf1 hf2
  simp only at he hc hs hd hh hp hq hf1 hf2
  cases e1 with
  | true => exact absurd he (by simp)
  | false =>
      obtain ⟨hde, hdh, hds, hdhf⟩ := doneC_main st1 hc
      rcases hdn : doneC st1 with ⟨out2, e2⟩
      rw [hdn] at hde hdh hds hdhf
      simp only at hde hdh hds hdhf
      dsimp only
      rw [hdn]
      dsimp only
      refine ⟨?_, ?_, ?_, ?_⟩
      · rw [countP_append, hh, hdh]
        rcases Bool.eq_false_or_eq_true (ls.any isReasoningLineC) with ha | ha <;>
          simp [ha, initStC]
      · intro ha
        obtain ⟨hs0, rest, hshape⟩ := hf2 ha
        refine ⟨hs0, rest ++ out2.filter (fun i => i.isHeader || i.isFrag), ?_⟩
        rw [List.filter_append, hshape]
        simp
      · intro ha
        have hss : st1.reasoningStarted = false := by
          rw [hs, ha]
          rfl
        have hse : st1.reasoningEnded = false := (hq hss).trans rfl
        rw [countP_append, hp, hds]
        simp [hse, initStC]
      · intro xs c ys hls hxs hcb
        subst hls
        obtain ⟨hokx, hokc, hoky⟩ := citOk_decomp xs c ys hok
        obtain ⟨hex, hcx, hsx, _, _, hpx, hqx⟩ := foldC_main xs initStC hokx rfl
        rcases hflx : lineFold stepC initStC xs with ⟨stx, outx, ex⟩
        rw [hflx] at hex hcx hsx hpx hqx
        simp only at hex hcx hsx hpx hqx
        cases ex with
        | true => exact absurd hex (by simp)
        | false =>
            have hsxs : stx.reasoningStarted = true := by
              rw [hsx, hxs]
              simp
            obtain ⟨hcend, hcelse⟩ := stepC_content stx c hcb hsxs
            obtain ⟨hce, hcc, _, _, _, _⟩ := stepC_main stx c hokc hcx
            rcases hsc2 : stepC stx c with ⟨stc2, outc, ec⟩
            rw [hsc2] at hcend hcelse hce hcc
            simp only at hcend hcelse hce hcc
            cases ec with
            | true => exact absurd hce (by simp)
            | false =>
                obtain ⟨hey, hcy, _, _, _, hpy, _⟩ := foldC_main ys stc2 hoky hcc
                rcases hfly : lineFold stepC stc2 ys with ⟨sty, outy, ey⟩
                rw [hfly] at hey hcy hpy
                simp only at hey hcy hpy
                cases ey with
                | true => exact absurd hey (by simp)
                | false =>
                    have hcomp : lineFold stepC initStC (xs ++ c :: ys) =
                        (sty, outx ++ (outc ++ outy), false) := by
                      rw [lineFold_append stepC xs (c :: ys) initStC, hflx]
                      dsimp only
                      have hfc : lineFold stepC stx (c :: ys) = (sty, outc ++ outy, false) := by
                        simp only [lineFold, hsc2, hfly]
                      rw [hfc]
                    have hout1 : outx ++ (outc ++ outy) = out1 :=
                      congrArg (fun p => p.2.1) (hcomp.symm.trans hfl)
                    rcases Bool.eq_false_or_eq_true stx.reasoningEnded with hre | hre
                    · obtain ⟨houtc, hc2e⟩ := hcend hre
                      have hpx1 : countP Item.isSep outx = 1 := by
                        rw [hpx]
                        simp [hre, initStC]
                      refine ⟨outx, outc ++ outy ++ out2, ?_, hpx1, ?_, ?_⟩
                      · rw [← hout1]
                        simp
                      · have hpy0 : countP Item.isSep outy = 0 := by
                          rw [hpy]
                          simp [hc2e]
                        rw [countP_append, countP_append, hpy0, hds, houtc]
                        rfl
                      · rw [houtc]
                        simp
                    · obtain ⟨s0, houtc, hc2e⟩ := hcelse hre
                      have hpx1 : countP Item.isSep outx = 0 := by
                        rw [hpx]
                        simp [hre, initStC]
                      refine ⟨outx ++ [Item.sep s0],
                        Item.fwd (c ++ "\n") :: (outy ++ out2), ?_, ?_, ?_, ?_⟩
                      · rw [← hout1, houtc]
                        simp
                      · rw [countP_append, hpx1]
                        rfl
                      · have hpy0 : countP Item.isSep outy = 0 := by
                          rw [hpy]
                          simp [hc2e]
                        rw [show countP Item.isSep (Item.fwd (c ++ "\n") :: (outy ++ out2)) =
                          countP Item.isSep (outy ++ out2) from rfl, countP_append, hpy0, hds]
                      · exact List.mem_cons_self _ _

/-- Example reasoning event line used for the C1 witness. -/
def exR1Delta : Json := Json.obj [("reasoning", Json.str "think"), ("content", Json.null)]

/-- Its wire form. -/
def exR1Line : String :=
  "data: " ++ Json.stringify (Json.obj [("choices", Json.arr [Json.obj [("delta", exR1Delta)]])])

/-- Example content event line used for the C1 witness. -/
def exK1Delta : Json := Json.obj [("content", Json.str "answer")]

/-- Its wire form. -/
def exK1Line : String :=
  "data: " ++ Json.stringify (Json.obj [("choices", Json.arr [Json.obj [("delta", exK1Delta)]])])

/-- **C1.** For both cited streaming transformers (the `reason.js` second
interceptor, variant B, and the unnamed file's first interceptor, variant
C), over any line sequence whose `citations` fields are well-formed arrays:
the synthetic Thinking header is emitted exactly once when some event takes
the reasoning branch and never otherwise; the header precedes every
forwarded reasoning fragment; with no reasoning event no duration
separator is emitted; and when a content-bearing event arrives after a
reasoning event, the duration separator is emitted exactly once, before
that content event's forwarded copy and with nothing of it afterwards. -/
theorem claim_C1 (ls : List String) (hok : citOk ls = true) :
    (countP Item.isHeader (runLinesB ls).1 =
        (if ls.any isReasoningLineB = true then 1 else 0) ∧
      (ls.any isReasoningLineB = true →
        ∃ hs rest, (runLinesB ls).1.filter (fun i => i.isHeader || i.isFrag) =
          Item.header hs :: rest) ∧
      (ls.any isReasoningLineB = false → countP Item.isSep (runLinesB ls).1 = 0) ∧
      (∀ xs c ys, ls = xs ++ c :: ys → xs.any isReasoningLineB = true →
        contentBearing c = true →
        ∃ u v, (runLinesB ls).1 = u ++ v ∧ countP Item.isSep u = 1 ∧
          countP Item.isSep v = 0 ∧ Item.fwd (c ++ "\n") ∈ v)) ∧
    (countP Item.isHeader (runLinesC ls).1 =
        (if ls.any isReasoningLineC = true then 1 else 0) ∧
      (ls.any isReasoningLineC = true →
        ∃ hs rest, (runLinesC ls).1.filter (fun i => i.isHeader || i.isFrag) =
          Item.header hs :: rest) ∧
      (ls.any isReasoningLineC = false → countP Item.isSep (runLinesC ls).1 = 0) ∧
      (∀ xs c ys, ls = xs ++ c :: ys → xs.any isReasoningLineC = true →
        contentBearing c = true →
        ∃ u v, (runLinesC ls).1 = u ++ v ∧ countP Item.isSep u = 1 ∧
          countP Item.isSep v = 0 ∧ Item.fwd (c ++ "\n") ∈ v)) :=
  ⟨partsC1_B ls hok, partsC1_C ls hok⟩

/-- Witness for C1: a two-line stream (one reasoning event, one content
event) has exactly one header under both variants. -/
theorem claim_C1_witness :
    citOk [exR1Line, exK1Line] = true ∧
    countP Item.isHeader (runLinesB [exR1Line, exK1Line]).1 = 1 ∧
    countP Item.isHeader (runLinesC [exR1Line, exK1Line]).1 = 1 :=
  ⟨by decide,
   ((claim_C1 [exR1Line, exK1Line] (by decide)).1.1).trans (by decide),
   ((claim_C1 [exR1Line, exK1Line] (by decide)).2.1).trans (by decide)⟩

/-! ## C4: citation footer placement -/

/-- Is the line the `[DONE]` sentinel? -/
def isSentinelL (l : String) : Bool :=
  match classify l with
  | .sentinel => true
  | _ => false

/-- The citation value a single event line captures (`data.citations` when
truthy). -/
def lineCapA (l : String) : Option Json :=
  match classify l with
  | .ev d => if jsTruthyO (getField d "citations") then getField d "citations" else none
  | _ => none

/-- The first-captured citation value of a line sequence (first-write-wins). -/
def capturesOf : List String → Option Json
  | [] => none
  | l :: t =>
      match lineCapA l with
      | some c => some c
      | none => capturesOf t

theorem stepA_body (st : StA) (l : String) (hsl : isSentinelL l = false) :
    stepA st l = (⟨match st.citations with
                   | some c => some c
                   | none => lineCapA l⟩, [Item.fwd (l ++ "\n")], false) := by
  rcases st with ⟨cit⟩
  have hcl2 := hsl
  unfold isSentinelL at hcl2
  unfold stepA
  cases hcl : classify l with
  | sentinel =>
      rw [hcl] at hcl2
      exact absurd hcl2 (by simp)
  | raw =>
      have h0 : lineCapA l = none := by simp [lineCapA, hcl]
      cases cit <;> simp [h0]
  | bad =>
      have h0 : lineCapA l = none := by simp [lineCapA, hcl]
      cases cit <;> simp [h0]
  | ev d =>
      have hcap : lineCapA l = (if jsTruthyO (getField d "citations") then
          getField d "citations" else none) := by
        simp [lineCapA, hcl]
      cases cit with
      | some c => simp
      | none =>
          by_cases ht : jsTruthyO (getField d "citations") = true
          · simp [hcap, ht]
          · simp [hcap, ht]

theorem foldA_body : ∀ (ls : List String) (st : StA),
    (∀ l ∈ ls, isSentinelL l = false) →
    lineFold stepA st ls =
      (⟨match st.citations with
        | some c => some c
        | none => capturesOf ls⟩, ls.map (fun l => Item.fwd (l ++ "\n")), false)
  | [], st, _ => by
      rcases st with ⟨cit⟩
      cases cit <;> simp [lineFold, capturesOf]
  | l :: ls, st, h => by
      have h1 : isSentinelL l = false := h l (List.mem_cons_self l ls)
      have h2 : ∀ x ∈ ls, isSentinelL x = false := fun x hx => h x (List.mem_cons_of_mem l hx)
      have hstep := stepA_body st l h1
      have ih := foldA_body ls (⟨match st.citations with
        | some c => some c
        | none => lineCapA l⟩) h2
      simp only [lineFold, hstep, ih]
      cases hcit : st.citations with
      | some c => simp [capturesOf]
      | none =>
          cases hcap : lineCapA l with
          | some c => simp [capturesOf, hcap]
          | none => simp [capturesOf, hcap]

theorem foldA_body0 (ls : List String) (h : ∀ l ∈ ls, isSentinelL l = false) :
    lineFold stepA initStA ls =
      (⟨capturesOf ls⟩, ls.map (fun l => Item.fwd (l ++ "\n")), false) :=
  foldA_body ls initStA h

theorem stepA_sent_some (cs : List Json) (dl : String) (hd : classify dl = LineClass.sentinel) :
    stepA ⟨some (Json.arr cs)⟩ dl =
      (⟨none⟩, [Item.footer (citationsMessageAB cs), Item.fwd (dl ++ "\n")], false) := by
  unfold stepA
  rw [hd]
  rfl

theorem stepA_sent_none (dl : String) (hd : classify dl = LineClass.sentinel) :
    stepA ⟨none⟩ dl = (⟨none⟩, [Item.fwd (dl ++ "\n")], false) := by
  unfold stepA
  rw [hd]

theorem stepC_sent (st : StC) (dl : String) (hd : classify dl = LineClass.sentinel) :
    stepC st dl = ({ st with tick := st.tick + 1 }, [Item.fwd (dl ++ "\n")], false) := by
  unfold stepC
  rw [hd]

theorem countP_footer_fwdmap : ∀ ls : List String,
    countP Item.isFooter (ls.map (fun l => Item.fwd (l ++ "\n"))) = 0
  | [] => rfl
  | l :: ls => by
      have ih := countP_footer_fwdmap ls
      simp only [List.map_cons]
      rw [show countP Item.isFooter (Item.fwd (l ++ "\n") ::
        ls.map (fun l => Item.fwd (l ++ "\n"))) =
        countP Item.isFooter (ls.map (fun l => Item.fwd (l ++ "\n"))) from rfl]
      exact ih

theorem stepC_cap (st : StC) (l : String) :
    (stepC st l).2.2 = false ∧
    (stepC st l).1.citations =
      (match st.citations with | some c => some c | none => lineCapA l) ∧
    countP Item.isFooter (stepC st l).2.1 = 0 := by
  unfold stepC
  cases hcl : classify l with
  | raw =>
      have h0 : lineCapA l = none := by simp [lineCapA, hcl]
      cases hcit : st.citations <;> simp [h0, countP, Item.isFooter]
  | sentinel =>
      have h0 : lineCapA l = none := by simp [lineCapA, hcl]
      cases hcit : st.citations <;> simp [h0, countP, Item.isFooter]
  | bad =>
      have h0 : lineCapA l = none := by simp [lineCapA, hcl]
      cases hcit : st.citations <;> simp [h0, countP, Item.isFooter]
  | ev d =>
      have hlcap : lineCapA l = (if jsTruthyO (getField d "citations") then
          getField d "citations" else none) := by
        simp [lineCapA, hcl]
      dsimp only
      generalize hstc : (if (jsTruthyO (getField d "citations") &&
          ({ st with tick := st.tick + 1 } : StC).citations.isNone) = true
          then { { st with tick := st.tick + 1 } with citations := getField d "citations" }
          else { st with tick := st.tick + 1 }) = stc
      have hcap : stc.citations =
          (match st.citations with | some c => some c | none => lineCapA l) := by
        rw [← hstc]
        by_cases hcond : (jsTruthyO (getField d "citations") &&
            ({ st with tick := st.tick + 1 } : StC).citations.isNone) = true
        · rw [if_pos hcond]
          simp only [Bool.and_eq_true] at hcond
          obtain ⟨ht, hn⟩ := hcond
          have hno : st.citations = none := by
            cases hx : st.citations with
            | none => rfl
            | some c =>
                rw [show ({ st with tick := st.tick + 1 } : StC).citations = st.citations
                  from rfl, hx] at hn
                exact absurd hn (by simp)
          show getField d "citations" =
            (match st.citations with | some c => some c | none => lineCapA l)
          rw [hno, hlcap]
          simp [ht]
        · rw [if_neg (by simpa using hcond)]
          show st.citations = (match st.citations with | some c => some c | none => lineCapA l)
          cases hx : st.citations with
          | some c => rfl
          | none =>
              have ht : jsTruthyO (getField d "citations") = false := by
                rcases Bool.eq_false_or_eq_true (jsTruthyO (getField d "citations")) with h | h
                · exfalso
                  apply hcond
                  rw [h]
                  show (true && ({ st with tick := st.tick + 1 } : StC).citations.isNone) = true
                  rw [show ({ st with tick := st.tick + 1 } : StC).citations = st.citations
                    from rfl, hx]
                  rfl
                · exact h
              rw [hlcap]
              simp [ht]
      unfold evStepC
      cases hdo : deltaOf d with
      | none => exact ⟨rfl, hcap, rfl⟩
      | some p =>
          rcases p with ⟨c0, delta⟩
          dsimp only
          by_cases hg : reasonGuardFalsy delta = true
          · rw [if_pos hg]
            rcases Bool.eq_false_or_eq_true stc.reasoningStarted with hsd | hsd <;>
              rw [hsd] <;>
              (cases hgr : getField delta "reasoning" with
               | none => exact ⟨rfl, hcap, rfl⟩
               | some rj => cases rj <;> exact ⟨rfl, hcap, rfl⟩)
          · rw [if_neg hg]
            by_cases htr : (contentGuardDefined delta && stc.reasoningStarted &&
                !stc.reasoningEnded) = true
            · rw [if_pos htr]
              exact ⟨rfl, hcap, rfl⟩
            · rw [if_neg htr]
              exact ⟨rfl, hcap, rfl⟩

theorem foldC_cap : ∀ (ls : List String) (st : StC),
    (lineFold stepC st ls).2.2 = false ∧
    (lineFold stepC st ls).1.citations =
      (match st.citations with | some c => some c | none => capturesOf ls) ∧
    countP Item.isFooter (lineFold stepC st ls).2.1 = 0
  | [], st => by
      cases hcit : st.citations <;> simp [lineFold, capturesOf, hcit, countP]
  | l :: ls, st => by
      obtain ⟨he1, hc1, hf1⟩ := stepC_cap st l
      rcases hsl : stepC st l with ⟨st1, out1, e1⟩
      rw [hsl] at he1 hc1 hf1
      simp only at he1 hc1 hf1
      cases e1 with
      | true => exact absurd he1 (by simp)
      | false =>
          obtain ⟨ihe, ihc, ihf⟩ := foldC_cap ls st1
          rcases hfl : lineFold stepC st1 ls with ⟨st2, out2, e2⟩
          rw [hfl] at ihe ihc ihf
          simp only at ihe ihc ihf
          have hfold : lineFold stepC st (l :: ls) = (st2, out1 ++ out2, e2) := by
            simp only [lineFold, hsl, hfl]
          rw [hfold]
          refine ⟨ihe, ?_, ?_⟩
          · show st2.citations = _
            rw [ihc, hc1]
            cases hcit : st.citations with
            | some c => rfl
            | none =>
                cases hcap2 : lineCapA l with
                | some c => simp [capturesOf, hcap2]
                | none => simp [capturesOf, hcap2]
          · show countP Item.isFooter (out1 ++ out2) = 0
            rw [countP_append, hf1, ihf]

theorem enumMapAB_spec : ∀ (cs : List Json) (k : Nat),
    (enumMapAB k cs).length = cs.length ∧
    ∀ i (hi : i < cs.length) (hj : i < (enumMapAB k cs).length),
      (enumMapAB k cs).get ⟨i, hj⟩ =
        "[" ++ toString (k + i + 1) ++ "] > " ++ jsToString (cs.get ⟨i, hi⟩)
  | [], k => ⟨rfl, fun i hi _ => absurd hi (by simp)⟩
  | c :: cs, k => by
      obtain ⟨ihl, ihg⟩ := enumMapAB_spec cs (k + 1)
      constructor
      · simp [enumMapAB, ihl]
      · intro i hi hj
        cases i with
        | zero => simp [enumMapAB]
        | succ n =>
            have hn : n < cs.length := by simpa using hi
            have hn2 : n < (enumMapAB (k + 1) cs).length := by
              rw [ihl]
              exact hn
            have hrec := ihg n hn hn2
            have harith : k + 1 + n + 1 = k + (n + 1) + 1 := by omega
            simp only [enumMapAB, List.get_cons_succ]
            rw [hrec, harith]

/-- A citation-bearing event line for the C4 counterexample and witness. -/
def exCit4Data : Json := Json.obj [("citations", Json.arr [Json.str "u1"])]

/-- Its wire form. -/
def exCit4Line : String := "data: " ++ Json.stringify exCit4Data

/-- **C4, counterexample.**  The unnamed file's first transformer emits the
citation footer only at end of transport: on a citation chunk followed by
the sentinel, the footer comes strictly AFTER the forwarded sentinel line,
contradicting the claim that it is emitted before the sentinel whenever the
sentinel signals termination. -/
theorem claim_C4_counterexample :
    (runLinesC [exCit4Line, "data: [DONE]"]).1 =
      [Item.fwd (exCit4Line ++ "\n"), Item.fwd "data: [DONE]\n",
       Item.footer (mkFresh (footerTextC [Json.str "u1"]))] := by
  decide

/-- **C4, amended.**  Over any stream of non-sentinel lines followed by the
sentinel: the `reason.js` first interceptor (variant A) emits the footer of
the first-captured citation array exactly once, immediately BEFORE the
forwarded sentinel, and emits no footer when nothing was captured; the
footer entries list the captured citations each exactly once, in their
original order, with 1-based indices; the unnamed file's first interceptor
(variant C), by contrast, emits its footer exactly once but only at end of
transport, strictly AFTER the forwarded sentinel line. -/
theorem claim_C4 (body : List String) (dl : String)
    (hb : ∀ l ∈ body, isSentinelL l = false) (hd : classify dl = LineClass.sentinel) :
    (∀ cs, capturesOf body = some (Json.arr cs) →
      (runLinesA (body ++ [dl])).1 =
        body.map (fun l => Item.fwd (l ++ "\n")) ++
          [Item.footer (citationsMessageAB cs), Item.fwd (dl ++ "\n")] ∧
      countP Item.isFooter (runLinesA (body ++ [dl])).1 = 1) ∧
    (capturesOf body = none →
      (runLinesA (body ++ [dl])).1 =
        body.map (fun l => Item.fwd (l ++ "\n")) ++ [Item.fwd (dl ++ "\n")] ∧
      countP Item.isFooter (runLinesA (body ++ [dl])).1 = 0) ∧
    (∀ k cs, (enumMapAB k cs).length = cs.length ∧
      ∀ i (hi : i < cs.length) (hj : i < (enumMapAB k cs).length),
        (enumMapAB k cs).get ⟨i, hj⟩ =
          "[" ++ toString (k + i + 1) ++ "] > " ++ jsToString (cs.get ⟨i, hi⟩)) ∧
    (∀ x t, capturesOf body = some (Json.arr (x :: t)) →
      ∃ pre, (runLinesC (body ++ [dl])).1 =
        pre ++ [Item.fwd (dl ++ "\n"), Item.footer (mkFresh (footerTextC (x :: t)))] ∧
        countP Item.isFooter pre = 0) := by
  refine ⟨?_, ?_, fun k cs => enumMapAB_spec cs k, ?_⟩
  · intro cs hcs
    have hfold : lineFold stepA initStA (body ++ [dl]) =
        (⟨none⟩, body.map (fun l => Item.fwd (l ++ "\n")) ++
          [Item.footer (citationsMessageAB cs), Item.fwd (dl ++ "\n")], false) := by
      rw [lineFold_append stepA body [dl] initStA, foldA_body0 body hb]
      dsimp only
      rw [hcs]
      have h1 : lineFold stepA ⟨some (Json.arr cs)⟩ [dl] =
          (⟨none⟩, [Item.footer (citationsMessageAB cs), Item.fwd (dl ++ "\n")], false) := by
        simp only [lineFold, stepA_sent_some cs dl hd]
        rfl
      rw [h1]
    have hitems : (runLinesA (body ++ [dl])).1 =
        body.map (fun l => Item.fwd (l ++ "\n")) ++
          [Item.footer (citationsMessageAB cs), Item.fwd (dl ++ "\n")] := by
      unfold runLinesA runLines
      rw [hfold]
      simp [doneA]
    refine ⟨hitems, ?_⟩
    rw [hitems, countP_append, countP_footer_fwdmap]
    rfl
  · intro hcs
    have hfold : lineFold stepA initStA (body ++ [dl]) =
        (⟨none⟩, body.map (fun l => Item.fwd (l ++ "\n")) ++ [Item.fwd (dl ++ "\n")],
         false) := by
      rw [lineFold_append stepA body [dl] initStA, foldA_body0 body hb]
      dsimp only
      rw [hcs]
      have h1 : lineFold stepA ⟨none⟩ [dl] =
          (⟨none⟩, [Item.fwd (dl ++ "\n")], false) := by
        simp only [lineFold, stepA_sent_none dl hd]
        rfl
      rw [h1]
    have hitems : (runLinesA (body ++ [dl])).1 =
        body.map (fun l => Item.fwd (l ++ "\n")) ++ [Item.fwd (dl ++ "\n")] := by
      unfold runLinesA runLines
      rw [hfold]
      simp [doneA]
    refine ⟨hitems, ?_⟩
    rw [hitems, countP_append, countP_footer_fwdmap]
    rfl
  · intro x t hcs
    obtain ⟨hfe, hfc, hff⟩ := foldC_cap body initStC
    rcases hflb : lineFold stepC initStC body with ⟨stb, outb, eb⟩
    rw [hflb] at hfe hfc hff
    simp only at hfe hfc hff
    cases eb with
    | true => exact absurd hfe (by simp)
    | false =>
        have hcit2 : stb.citations = some (Json.arr (x :: t)) := hfc.trans hcs
        have hfold : lineFold stepC initStC (body ++ [dl]) =
            ({ stb with tick := stb.tick + 1 }, outb ++ [Item.fwd (dl ++ "\n")], false) := by
          rw [lineFold_append stepC body [dl] initStC, hflb]
          dsimp only
          have h1 : lineFold stepC stb [dl] =
              ({ stb with tick := stb.tick + 1 }, [Item.fwd (dl ++ "\n")], false) := by
            simp only [lineFold, stepC_sent stb dl hd]
            rfl
          rw [h1]
        have hdone : doneC { stb with tick := stb.tick + 1 } =
            ([Item.footer (mkFresh (footerTextC (x :: t)))], false) := by
          unfold doneC
          rw [show ({ stb with tick := stb.tick + 1 } : StC).citations = stb.citations
            from rfl, hcit2]
        refine ⟨outb, ?_, hff⟩
        unfold runLinesC runLines
        rw [hfold]
        dsimp only
        rw [hdone]
        simp

/-- Witness for the amended C4 at a concrete one-citation stream. -/
theorem claim_C4_witness :
    (∀ l ∈ [exCit4Line], isSentinelL l = false) ∧
    classify "data: [DONE]" = LineClass.sentinel ∧
    capturesOf [exCit4Line] = some (Json.arr [Json.str "u1"]) ∧
    countP Item.isFooter (runLinesA ([exCit4Line] ++ ["data: [DONE]"])).1 = 1 :=
  ⟨by decide, by decide, by decide,
   ((claim_C4 [exCit4Line] "data: [DONE]" (by decide) (by decide)).1
     [Json.str "u1"] (by decide)).2⟩

/-! ## C8: batch content formula -/

/-- A batch message with reasoning and content, for C8. -/
def exM8 : Json := Json.obj [("reasoning", Json.str "hm"), ("content", Json.str "ok")]

/-- Its choice object. -/
def exC08 : Json := Json.obj [("message", exM8)]

/-- Its document. -/
def exD8 : Json := Json.obj [("choices", Json.arr [exC08])]

/-- Its body string. -/
def exB8 : String := Json.stringify exD8

/-- A batch message without reasoning. -/
def exM8n : Json := Json.obj [("content", Json.str "ok")]

/-- Its choice object. -/
def exC08n : Json := Json.obj [("message", exM8n)]

/-- Its document. -/
def exD8n : Json := Json.obj [("choices", Json.arr [exC08n])]

/-- Its body string. -/
def exB8n : String := Json.stringify exD8n

/-- The reasoning document with a one-entry citations list. -/
def exD8c : Json :=
  Json.obj [("choices", Json.arr [exC08]), ("citations", Json.arr [Json.str "u"])]

/-- Its body string. -/
def exB8c : String := Json.stringify exD8c

/-- **C8, counterexample.**  On a reasoning document without citations, the
part_000 batch transformer inserts a SINGLE separator (not two), and even
the reason.js transformer's two separators are the contiguous text
`\n\n---\n\n---\n\n`, not two copies of the with-citations separator
`\n\n---\n\n`. -/
theorem claim_C8_counterexample :
    processNonStreamingResponseD exB8 =
      Json.stringify (setMsgContent exD8 exC08 exM8 ("> hm" ++ "\n\n---\n\n" ++ "ok")) ∧
    processNonStreamingResponseD exB8 ≠
      Json.stringify (setMsgContent exD8 exC08 exM8
        ("> hm" ++ "\n\n---\n\n" ++ "\n\n---\n\n" ++ "ok")) ∧
    processNonStreamingResponseA exB8 =
      Json.stringify (setMsgContent exD8 exC08 exM8 ("> hm" ++ "\n\n---\n\n---\n\n" ++ "ok")) ∧
    processNonStreamingResponseA exB8 ≠
      Json.stringify (setMsgContent exD8 exC08 exM8
        ("> hm" ++ "\n\n---\n\n" ++ "\n\n---\n\n" ++ "ok")) := by
  decide

/-- **C8, amended.**  Reasoning absent: both batch transformers return the
body byte-identically.  Reasoning a non-empty string and no citations: the
`reason.js` transformer replaces the content with
`quoted + "\n\n---\n\n---\n\n" + content` (its two separators share one
blank-line gap), while the part_000 second transformer inserts a single
separator `quoted + "\n\n---\n\n" + content`.  With an array citations
field both append the 1-indexed citation list after a second separator
(shown for `reason.js`, whose entries use the `[i] > c` format).  Blank
reasoning lines quote to a bare `>`, non-blank lines get a `"> "` prefix. -/
theorem claim_C8
    (body1 bodyB bodyC : String) (data1 c01 msg1 dataB c0B msgB dataC c0C msgC : Json)
    (rB rC : String) (xsC : List Json)
    (hp1 : Json.parse body1 = some data1) (hm1 : choiceMsgOf data1 = some (c01, msg1))
    (hr1 : getField msg1 "reasoning" = none)
    (hpB : Json.parse bodyB = some dataB) (hmB : choiceMsgOf dataB = some (c0B, msgB))
    (hrB : getField msgB "reasoning" = some (Json.str rB)) (htB : rB ≠ "")
    (hcB : getField dataB "citations" = none)
    (hpC : Json.parse bodyC = some dataC) (hmC : choiceMsgOf dataC = some (c0C, msgC))
    (hrC : getField msgC "reasoning" = some (Json.str rC)) (htC : rC ≠ "")
    (hcC : getField dataC "citations" = some (Json.arr xsC)) :
    processNonStreamingResponseA body1 = body1 ∧
    processNonStreamingResponseD body1 = body1 ∧
    processNonStreamingResponseA bodyB =
      Json.stringify (setMsgContent dataB c0B msgB
        (quotedReasoningOf rB ++ "\n\n---\n\n---\n\n" ++ contentTemplate msgB)) ∧
    processNonStreamingResponseD bodyB =
      Json.stringify (setMsgContent dataB c0B msgB
        (quotedReasoningOf rB ++ "\n\n---\n\n" ++ contentTemplate msgB)) ∧
    processNonStreamingResponseA bodyC =
      Json.stringify (setMsgContent dataC c0C msgC
        (quotedReasoningOf rC ++ "\n\n---\n\n" ++ contentTemplate msgC ++ "\n\n---\n\n" ++
          String.intercalate "\n" (enumMapAB 0 xsC))) ∧
    quotedReasoningOf "a\nb" = "> a\n> b" ∧
    quotedReasoningOf "a\n\nb" = "> a\n>\n> b" := by
  have htrB : jsTruthy (Json.str rB) = true := by simp [jsTruthy, htB]
  have htrC : jsTruthy (Json.str rC) = true := by simp [jsTruthy, htC]
  refine ⟨?_, ?_, ?_, ?_, ?_, by decide, by decide⟩
  · simp [processNonStreamingResponseA, hp1, hm1, hr1]
  · simp [processNonStreamingResponseD, hp1, hm1, hr1]
  · simp [processNonStreamingResponseA, hpB, hmB, hrB, htrB, hcB, jsTruthyO]
  · simp [processNonStreamingResponseD, hpB, hmB, hrB, htrB, hcB, jsTruthyO]
  · have hto : jsTruthyO (getField dataC "citations") = true := by
      simp [hcC, jsTruthyO, jsTruthy]
    simp [processNonStreamingResponseA, hpC, hmC, hrC, htrC, hcC, hto]
    intro hx
    simp [jsTruthyO, jsTruthy] at hx

/-- Witness for the amended C8 at concrete documents. -/
theorem claim_C8_witness :
    (Json.parse exB8n = some exD8n ∧ choiceMsgOf exD8n = some (exC08n, exM8n) ∧
     getField exM8n "reasoning" = none ∧
     Json.parse exB8 = some exD8 ∧ choiceMsgOf exD8 = some (exC08, exM8) ∧
     getField exM8 "reasoning" = some (Json.str "hm") ∧
     getField exD8 "citations" = none ∧
     Json.parse exB8c = some exD8c ∧ choiceMsgOf exD8c = some (exC08, exM8) ∧
     getField exD8c "citations" = some (Json.arr [Json.str "u"])) ∧
    processNonStreamingResponseD exB8 =
      Json.stringify (setMsgContent exD8 exC08 exM8
        (quotedReasoningOf "hm" ++ "\n\n---\n\n" ++ contentTemplate exM8)) :=
  ⟨by decide,
   (claim_C8 exB8n exB8 exB8c exD8n exC08n exM8n exD8 exC08 exM8 exD8c exC08 exM8
     "hm" "hm" [Json.str "u"]
     (by decide) (by decide) (by decide) (by decide) (by decide) (by decide) (by decide)
     (by decide) (by decide) (by decide) (by decide) (by decide)
     (by decide)).2.2.2.1⟩

/-! ## C9: batch error fallback -/

/-- **C9.**  Every failure path of the two cited batch transformers
(`reason.js` lines 146–185, variant A, and the unnamed file lines 208–247,
variant C) returns the original body unmodified: unparseable JSON, missing
choice/message, absent reasoning, falsy reasoning, a truthy non-string
reasoning (whose `.split` would throw, caught by the surrounding handler),
and a truthy non-array citations value (whose `.map` would throw,
likewise caught).  No input reaches any other outcome than the original
body or a successful rewrite. -/
theorem claim_C9 (body : String) :
    (Json.parse body = none →
      processNonStreamingResponseA body = body ∧
      processNonStreamingResponseC body = body) ∧
    (∀ data, Json.parse body = some data → choiceMsgOf data = none →
      processNonStreamingResponseA body = body ∧
      processNonStreamingResponseC body = body) ∧
    (∀ data c0 msg, Json.parse body = some data → choiceMsgOf data = some (c0, msg) →
      getField msg "reasoning" = none →
      processNonStreamingResponseA body = body ∧
      processNonStreamingResponseC body = body) ∧
    (∀ data c0 msg rj, Json.parse body = some data → choiceMsgOf data = some (c0, msg) →
      getField msg "reasoning" = some rj → jsTruthy rj = false →
      processNonStreamingResponseA body = body ∧
      processNonStreamingResponseC body = body) ∧
    (∀ data c0 msg rj, Json.parse body = some data → choiceMsgOf data = some (c0, msg) →
      getField msg "reasoning" = some rj → jsTruthy rj = true →
      (∀ r, rj ≠ Json.str r) →
      processNonStreamingResponseA body = body ∧
      processNonStreamingResponseC body = body) ∧
    (∀ data c0 msg r, Json.parse body = some data → choiceMsgOf data = some (c0, msg) →
      getField msg "reasoning" = some (Json.str r) → jsTruthy (Json.str r) = true →
      jsTruthyO (getField data "citations") = true →
      (∀ xs, getField data "citations" ≠ some (Json.arr xs)) →
      processNonStreamingResponseA body = body ∧
      processNonStreamingResponseC body = body) := by
  refine ⟨?_, ?_, ?_, ?_, ?_, ?_⟩
  · intro hp
    constructor <;> simp [processNonStreamingResponseA, processNonStreamingResponseC, hp]
  · intro data hp hm
    constructor <;> simp [processNonStreamingResponseA, processNonStreamingResponseC, hp, hm]
  · intro data c0 msg hp hm hr
    constructor <;>
      simp [processNonStreamingResponseA, processNonStreamingResponseC, hp, hm, hr]
  · intro data c0 msg rj hp hm hr ht
    constructor <;>
      simp [processNonStreamingResponseA, processNonStreamingResponseC, hp, hm, hr, ht]
  · intro data c0 msg rj hp hm hr ht hne
    constructor <;>
      · simp [processNonStreamingResponseA, processNonStreamingResponseC, hp, hm, hr, ht]
  · intro data c0 msg r hp hm hr ht hc hne
    constructor <;>
      · simp [processNonStreamingResponseA, processNonStreamingResponseC, hp, hm, hr, ht, hc]

/-- A truthy non-string reasoning document for the C9 witness. -/
def exM9 : Json := Json.obj [("reasoning", Json.num 7), ("content", Json.str "ok")]

/-- Its choice object. -/
def exC09 : Json := Json.obj [("message", exM9)]

/-- Its document. -/
def exD9 : Json := Json.obj [("choices", Json.arr [exC09])]

/-- Its body string. -/
def exB9 : String := Json.stringify exD9

/-- Witness for C9: an unparseable body and a throwing rewrite both fall
back to the original body under both batch transformers. -/
theorem claim_C9_witness :
    (Json.parse "nope" = none ∧ Json.parse exB9 = some exD9 ∧
     choiceMsgOf exD9 = some (exC09, exM9) ∧
     getField exM9 "reasoning" = some (Json.num 7) ∧ jsTruthy (Json.num 7) = true) ∧
    processNonStreamingResponseA "nope" = "nope" ∧
    processNonStreamingResponseC "nope" = "nope" ∧
    processNonStreamingResponseA exB9 = exB9 ∧
    processNonStreamingResponseC exB9 = exB9 :=
  ⟨by decide,
   ((claim_C9 "nope").1 (by decide)).1,
   ((claim_C9 "nope").1 (by decide)).2,
   ((claim_C9 exB9).2.2.2.2.1 exD9 exC09 exM9 (Json.num 7) (by decide) (by decide)
     (by decide) (by decide) (fun r => by simp)).1,
   ((claim_C9 exB9).2.2.2.2.1 exD9 exC09 exM9 (Json.num 7) (by decide) (by decide)
     (by decide) (by decide) (fun r => by simp)).2⟩
